import Mathlib

/-!
# Verification of the pdsa rank/quantile estimators

Shallow embedding of the two rank/quantile estimators of the pdsa library:

* `QuantileDigest` from `src/unnamed/part_010` (a variant of
  `src/pdsa/rank/qdigest.pyx`; where the two differ, both are embedded and
  the difference is stated explicitly, see `QuantileDigest.compressPyx`);
* `RandomSampling` (with its `_MetaBuffer`) from `src/unnamed/part_009`
  (whose declarations are `src/pdsa/rank/random_sampling.pxd`).

Python `dict` objects are embedded as association lists with Python's
insertion-order semantics: assigning to an existing key keeps its position,
assigning to a new key appends, deleting removes.  Iteration over the dict
is iteration over the list.  C `size_t` / `uint64_t` counters are embedded
as `Nat` (idealising overflow, which none of the verified scenarios reach).

The C `float`/`double` quantities (`_exact_boundary_value`, `delta` in
`_bucket_range`, `boundary_rank` in the queries) are embedded as exact
rationals, represented as unreduced numerator/denominator pairs (`QFrac`)
so that everything computes by `decide`.  All concrete inputs used in
witnesses and counterexamples were chosen so that the C floating-point
computation is exact there and agrees with the rational embedding.
Randomness in `RandomSampling` (`sample`, `randint`) is embedded as an
explicit oracle (`RSOracle`): every theorem about the sampler quantifies
over all oracles.
-/

/-! ## Python dict as an association list -/

/-- First-match lookup in an association list: `m[k]` / `m.get(k)`. -/
def dlookup (k : Nat) : List (Nat × Nat) → Option Nat
  | [] => none
  | (k', v) :: t => if k' = k then some v else dlookup k t

/-- Python `m[k] = v`: replace in place if the key exists, else append. -/
def dset (k v : Nat) : List (Nat × Nat) → List (Nat × Nat)
  | [] => [(k, v)]
  | (k', v') :: t => if k' = k then (k', v) :: t else (k', v') :: dset k v t

/-- Python `del m[k]` (first occurrence; keys are unique in a dict). -/
def derase (k : Nat) : List (Nat × Nat) → List (Nat × Nat)
  | [] => []
  | (k', v') :: t => if k' = k then t else (k', v') :: derase k t

/-- `sum(m.values())`. -/
def dsum (m : List (Nat × Nat)) : Nat := (m.map Prod.snd).sum

/-- `list(m.keys())` in iteration order. -/
def dkeys (m : List (Nat × Nat)) : List Nat := m.map Prod.fst

/-- The dict invariant: keys are pairwise distinct. -/
def NodupKeys (m : List (Nat × Nat)) : Prop := (m.map Prod.fst).Nodup

instance (m : List (Nat × Nat)) : Decidable (NodupKeys m) := by
  unfold NodupKeys; infer_instance

/-- Two association lists denote the same dict. -/
def MapEquiv (m₁ m₂ : List (Nat × Nat)) : Prop := ∀ k, dlookup k m₁ = dlookup k m₂

theorem mapEquiv_refl (m : List (Nat × Nat)) : MapEquiv m m := fun _ => rfl

theorem MapEquiv.symm {m₁ m₂ : List (Nat × Nat)} (h : MapEquiv m₁ m₂) :
    MapEquiv m₂ m₁ := fun k => (h k).symm

theorem mapEquiv_trans {m₁ m₂ m₃ : List (Nat × Nat)} (h₁ : MapEquiv m₁ m₂)
    (h₂ : MapEquiv m₂ m₃) : MapEquiv m₁ m₃ := fun k => (h₁ k).trans (h₂ k)

@[simp] theorem dlookup_nil (k : Nat) : dlookup k [] = none := rfl

theorem dlookup_cons (k k' v : Nat) (t : List (Nat × Nat)) :
    dlookup k ((k', v) :: t) = if k' = k then some v else dlookup k t := rfl

@[simp] theorem dlookup_dset_self (k v : Nat) (m : List (Nat × Nat)) :
    dlookup k (dset k v m) = some v := by
  induction m with
  | nil => simp [dset, dlookup]
  | cons hd t ih =>
      obtain ⟨k', v'⟩ := hd
      by_cases h : k' = k <;> simp [dset, dlookup, h, ih]

@[simp] theorem dlookup_dset_ne (k k' v : Nat) (m : List (Nat × Nat)) (h : k' ≠ k) :
    dlookup k (dset k' v m) = dlookup k m := by
  induction m with
  | nil => simp [dset, dlookup, h]
  | cons hd t ih =>
      obtain ⟨k₀, v₀⟩ := hd
      by_cases h₀ : k₀ = k'
      · subst h₀; simp [dset, dlookup, h]
      · by_cases h₁ : k₀ = k <;> simp [dset, dlookup, h₀, h₁, Ne.symm h, ih]

@[simp] theorem dlookup_derase_ne (k k' : Nat) (m : List (Nat × Nat)) (h : k' ≠ k) :
    dlookup k (derase k' m) = dlookup k m := by
  induction m with
  | nil => simp [derase]
  | cons hd t ih =>
      obtain ⟨k₀, v₀⟩ := hd
      by_cases h₀ : k₀ = k'
      · subst h₀; simp [derase, dlookup, h]
      · by_cases h₁ : k₀ = k <;> simp [derase, dlookup, h₀, h₁, Ne.symm h, ih]

theorem dlookup_eq_none_of_not_mem (k : Nat) (m : List (Nat × Nat))
    (h : k ∉ dkeys m) : dlookup k m = none := by
  induction m with
  | nil => rfl
  | cons hd t ih =>
      obtain ⟨k₀, v₀⟩ := hd
      simp only [dkeys, List.map_cons, List.mem_cons] at h
      push_neg at h
      obtain ⟨h₁, h₂⟩ := h
      simp [dlookup, Ne.symm h₁, ih (by simpa [dkeys] using h₂)]

theorem mem_dkeys_iff_lookup (k : Nat) (m : List (Nat × Nat)) :
    k ∈ dkeys m ↔ dlookup k m ≠ none := by
  induction m with
  | nil => simp [dkeys]
  | cons hd t ih =>
      obtain ⟨k₀, v₀⟩ := hd
      by_cases h₀ : k₀ = k
      · subst h₀; simp [dkeys, dlookup]
      · have hl : dlookup k ((k₀, v₀) :: t) = dlookup k t := by simp [dlookup, h₀]
        rw [hl, ← ih]
        simp only [dkeys, List.map_cons, List.mem_cons]
        constructor
        · rintro (h | h)
          · exact absurd h.symm h₀
          · exact h
        · exact fun h => Or.inr h

theorem nodupKeys_cons_iff (k₀ v₀ : Nat) (t : List (Nat × Nat)) :
    NodupKeys ((k₀, v₀) :: t) ↔ k₀ ∉ dkeys t ∧ NodupKeys t := by
  simp only [NodupKeys, dkeys, List.map_cons, List.nodup_cons]

theorem dlookup_derase_self (k : Nat) (m : List (Nat × Nat)) (hm : NodupKeys m) :
    dlookup k (derase k m) = none := by
  induction m with
  | nil => rfl
  | cons hd t ih =>
      obtain ⟨k₀, v₀⟩ := hd
      rw [nodupKeys_cons_iff] at hm
      by_cases h₀ : k₀ = k
      · subst h₀
        simpa [derase] using dlookup_eq_none_of_not_mem _ _ hm.1
      · simp [derase, dlookup, h₀, ih hm.2]

theorem nodupKeys_dset (k v : Nat) (m : List (Nat × Nat)) (hm : NodupKeys m) :
    NodupKeys (dset k v m) := by
  induction m with
  | nil => simp [dset, NodupKeys, dkeys]
  | cons hd t ih =>
      obtain ⟨k₀, v₀⟩ := hd
      rw [nodupKeys_cons_iff] at hm
      by_cases h₀ : k₀ = k
      · subst h₀
        rw [show dset k₀ v ((k₀, v₀) :: t) = (k₀, v) :: t by simp [dset]]
        rw [nodupKeys_cons_iff]
        exact hm
      · rw [show dset k v ((k₀, v₀) :: t) = (k₀, v₀) :: dset k v t by
          simp [dset, fun hc : k₀ = k => h₀ hc]]
        rw [nodupKeys_cons_iff]
        refine ⟨?_, ih hm.2⟩
        intro hmem
        rw [mem_dkeys_iff_lookup,
          dlookup_dset_ne _ _ _ _ (fun hc => h₀ hc.symm),
          ← mem_dkeys_iff_lookup] at hmem
        exact hm.1 hmem

theorem nodupKeys_derase (k : Nat) (m : List (Nat × Nat)) (hm : NodupKeys m) :
    NodupKeys (derase k m) := by
  induction m with
  | nil => simpa [derase] using hm
  | cons hd t ih =>
      obtain ⟨k₀, v₀⟩ := hd
      rw [nodupKeys_cons_iff] at hm
      by_cases h₀ : k₀ = k
      · subst h₀
        simpa [derase] using hm.2
      · rw [show derase k ((k₀, v₀) :: t) = (k₀, v₀) :: derase k t by
          simp [derase, fun hc : k₀ = k => h₀ hc]]
        rw [nodupKeys_cons_iff]
        refine ⟨?_, ih hm.2⟩
        intro hmem
        rw [mem_dkeys_iff_lookup,
          dlookup_derase_ne _ _ _ (fun hc => h₀ hc.symm),
          ← mem_dkeys_iff_lookup] at hmem
        exact hm.1 hmem

theorem dsum_dset_present (k v c : Nat) (m : List (Nat × Nat))
    (h : dlookup k m = some c) : dsum (dset k v m) + c = dsum m + v := by
  induction m with
  | nil => simp [dlookup] at h
  | cons hd t ih =>
      obtain ⟨k₀, v₀⟩ := hd
      by_cases h₀ : k₀ = k
      · subst h₀
        simp [dlookup] at h
        subst h
        simp [dset, dsum]
        omega
      · simp [dlookup, h₀] at h
        have := ih h
        simp [dset, dsum, h₀] at this ⊢
        omega

theorem dsum_dset_absent (k v : Nat) (m : List (Nat × Nat))
    (h : dlookup k m = none) : dsum (dset k v m) = dsum m + v := by
  induction m with
  | nil => simp [dset, dsum]
  | cons hd t ih =>
      obtain ⟨k₀, v₀⟩ := hd
      by_cases h₀ : k₀ = k
      · simp [dlookup, h₀] at h
      · simp [dlookup, h₀] at h
        have := ih h
        simp [dset, dsum, h₀] at this ⊢
        omega

theorem dsum_derase (k c : Nat) (m : List (Nat × Nat))
    (h : dlookup k m = some c) : dsum (derase k m) + c = dsum m := by
  induction m with
  | nil => simp [dlookup] at h
  | cons hd t ih =>
      obtain ⟨k₀, v₀⟩ := hd
      by_cases h₀ : k₀ = k
      · subst h₀
        simp [dlookup] at h
        subst h
        simp [derase, dsum]
        omega
      · simp [dlookup, h₀] at h
        have := ih h
        simp [derase, dsum, h₀] at this ⊢
        omega

theorem dsum_derase_absent (k : Nat) (m : List (Nat × Nat))
    (h : dlookup k m = none) : dsum (derase k m) = dsum m := by
  induction m with
  | nil => rfl
  | cons hd t ih =>
      obtain ⟨k₀, v₀⟩ := hd
      by_cases h₀ : k₀ = k
      · simp [dlookup, h₀] at h
      · simp [dlookup, h₀] at h
        have := ih h
        simp [derase, dsum, h₀] at this ⊢
        omega

/-! ## Exact fractions standing in for the C floating-point values

`QFrac` is an unreduced non-negative fraction `num / den`.  It embeds the C
`float` fields and expressions of the source exactly (real arithmetic); the
rounding behaviour of IEEE floats is NOT modelled — every concrete input
used below keeps the C computation exact, and the one claim that is about
the float accumulator itself (C8) is reported as not statable. -/

structure QFrac where
  num : Nat
  den : Nat
deriving Repr, DecidableEq

/-- `q + 1.0 / k` (exact). -/
def QFrac.addInv (q : QFrac) (k : Nat) : QFrac := ⟨q.num * k + q.den, q.den * k⟩

/-- `n / k` as an exact fraction (`float(n) / k`). -/
def QFrac.ofDiv (n k : Nat) : QFrac := ⟨n, k⟩

/-- `floor(q)` followed by the cast to an unsigned integer. -/
def QFrac.floorNat (q : QFrac) : Nat := q.num / q.den

/-- The zero value `0.0`. -/
def QFrac.zero : QFrac := ⟨0, 1⟩

/-- Exact comparison `(r : Nat) > q` of a counter with a fraction. -/
def QFrac.natGT (r : Nat) (q : QFrac) : Bool := r * q.den > q.num

/-- Exact product `n * q` of a counter with a fraction. -/
def QFrac.natMul (n : Nat) (q : QFrac) : QFrac := ⟨n * q.num, q.den⟩

/-- Exact comparison `q < r` with a natural bound. -/
def QFrac.ltNat (q : QFrac) (r : Nat) : Bool := q.num < r * q.den

/-- Exact comparison `q > r` with a natural bound. -/
def QFrac.gtNat (q : QFrac) (r : Nat) : Bool := q.num > r * q.den

/-! ## QuantileDigest, embedded from src/unnamed/part_010

Errors raised by the Cython code are embedded in the result type.  The
mutating operations return the post-call state together with the raised
error (if one was raised), so that "a rejected call leaves the structure
unchanged" is an actual statement about the embedding and not a
tautology of functional modelling.  Queries return the post-call state
together with the result. -/

inductive QdError where
  | valueError
  | unboundLocalError
deriving Repr, DecidableEq

/-- Fuelled bit-length recursion (`bitLenGo n n` computes `n.bit_length()`). -/
def bitLenGo : Nat → Nat → Nat
  | 0, _ => 0
  | fuel + 1, n => if n = 0 then 0 else bitLenGo fuel (n / 2) + 1

/-- Python's `int.bit_length()`. -/
def bitLen (n : Nat) : Nat := bitLenGo n n

structure QuantileDigest where
  compression_factor : Nat
  range_in_bits : Nat
  minRange : Nat
  maxRange : Nat
  treeHeight : Nat
  maxNumberOfNodes : Nat
  numberOfBuckets : Nat
  exactBoundaryValue : QFrac
  qdigest : List (Nat × Nat)
deriving Repr, DecidableEq

namespace QuantileDigest

/-- `__cinit__` after its two parameter checks (`compression_factor < 1`,
`range_in_bits > 32`) have passed.  The checks happen before any field is
written, so a rejected construction produces no object at all. -/
def init (range_in_bits compression_factor : Nat) : QuantileDigest :=
  { compression_factor := compression_factor
    range_in_bits := range_in_bits
    minRange := 0
    maxRange := 2 ^ range_in_bits - 1
    treeHeight := range_in_bits + 1
    maxNumberOfNodes := 2 ^ (range_in_bits + 1) - 1
    numberOfBuckets := 0
    exactBoundaryValue := QFrac.zero
    qdigest := [] }

/-- `_bucket_canonical_id`. -/
def bucketCanonicalId (d : QuantileDigest) (value : Nat) : Nat :=
  d.maxNumberOfNodes - d.maxRange + value

/-- `_bucket_parent_id`. -/
def bucketParentId (b : Nat) : Nat := b / 2

/-- `_bucket_sibling_id`: `2 * parent + (bucket_id % 2) ^ 1`. -/
def bucketSiblingId (b : Nat) : Nat := 2 * (b / 2) + Nat.xor (b % 2) 1

/-- `_bucket_level`: `bucket_id.bit_length()`. -/
def bucketLevel (b : Nat) : Nat := bitLen b

/-- `_buckets_on_level`: ids present in the dict (in dict order) that lie in
`[2^(level-1), 2 * 2^(level-1) - 1]`. -/
def bucketsOnLevel (d : QuantileDigest) (level : Nat) : List Nat :=
  let start := 2 ^ (level - 1)
  let stop := 2 * start - 1
  (dkeys d.qdigest).filter (fun b => decide (start ≤ b) && decide (b ≤ stop))

/-- `_bucket_range`.  The C code computes `delta = (max - min) / float(2^(level-1))`
and takes `ceil(delta * pos)` / `floor(delta * (pos + 1))`; this is the same
computation in exact rational arithmetic, written with integer ceiling and
floor division. -/
def bucketRange (d : QuantileDigest) (b : Nat) : Nat × Nat :=
  let level := bucketLevel b
  let onLevel := 2 ^ (level - 1)
  let span := d.maxRange - d.minRange
  let pos := b % onLevel
  (d.minRange + (span * pos + onLevel - 1) / onLevel,
   d.minRange + span * (pos + 1) / onLevel)

/-- `_is_worth_to_store`: `family_counts > max(1, floor(_exact_boundary_value))`. -/
def isWorthToStore (d : QuantileDigest) (family_counts : Nat) : Bool :=
  family_counts > max 1 d.exactBoundaryValue.floorNat

/-- `count()`: `sum(self._qdigest.values())`. -/
def count (d : QuantileDigest) : Nat := dsum d.qdigest

/-- `_delete_bucket_if_exists` (also decrements `_number_of_buckets`). -/
def deleteBucketIfExists (d : QuantileDigest) (b : Nat) : QuantileDigest × Bool :=
  match dlookup b d.qdigest with
  | none => (d, false)
  | some _ =>
      ({ d with qdigest := derase b d.qdigest,
                numberOfBuckets := d.numberOfBuckets - 1 }, true)

/-- `_merge_if_needed` (`ROOT_BUCKET = 1`). -/
def mergeIfNeeded (d : QuantileDigest) (current : Nat) : QuantileDigest :=
  match dlookup current d.qdigest with
  | none => d
  | some bucket_counts =>
      if current = 1 then
        if bucket_counts ≤ 0 then (d.deleteBucketIfExists 1).1 else d
      else
        let parent := bucketParentId current
        let sibling := bucketSiblingId current
        let parent_counts := (dlookup parent d.qdigest).getD 0
        let sibling_counts := (dlookup sibling d.qdigest).getD 0
        let family_counts := bucket_counts + parent_counts + sibling_counts
        if d.isWorthToStore family_counts then d
        else
          let d₁ : QuantileDigest :=
            { d with
              numberOfBuckets :=
                if dlookup parent d.qdigest = none then d.numberOfBuckets + 1
                else d.numberOfBuckets,
              qdigest := dset parent family_counts d.qdigest }
          let d₂ := (d₁.deleteBucketIfExists current).1
          (d₂.deleteBucketIfExists sibling).1

/-- The level loop of `compress`: levels `tree_height, ..., 1`. -/
def compressLevels : Nat → QuantileDigest → QuantileDigest
  | 0, d => d
  | level + 1, d =>
      compressLevels level ((d.bucketsOnLevel (level + 1)).foldl mergeIfNeeded d)

/-- `compress()` of `src/unnamed/part_010`: early return when fewer than 2
buckets are retained. -/
def compress (d : QuantileDigest) : QuantileDigest :=
  if d.numberOfBuckets < 2 then d else compressLevels d.treeHeight d

/-- `compress()` of `src/pdsa/rank/qdigest.pyx` (same merge procedure, but
early return when the number of retained buckets is at most the
compression factor). -/
def compressPyx (d : QuantileDigest) : QuantileDigest :=
  if d.numberOfBuckets ≤ d.compression_factor then d
  else compressLevels d.treeHeight d

/-- The closest-existing-parent search loop of `add` (fuelled; called with
fuel equal to the starting bucket id, which halves on every step). -/
def closestGo (m : List (Nat × Nat)) : Nat → Nat → Nat
  | 0, _ => 0
  | fuel + 1, b =>
      if b = 0 then 0
      else if (dlookup b m).isSome then b
      else closestGo m fuel (b / 2)

/-- The missing-ancestor creation loop of `add`: walk `b := b / 2` and store
zero-count buckets while strictly above `closest`; returns the new dict and
the number of buckets created. -/
def ancestorsGo (closest : Nat) :
    Nat → Nat → List (Nat × Nat) → Nat → List (Nat × Nat) × Nat
  | 0, _, m, created => (m, created)
  | fuel + 1, b, m, created =>
      if b = 0 then (m, created)
      else
        let b' := b / 2
        if b' ≤ closest then (m, created)
        else ancestorsGo closest fuel b' (dset b' 0 m) (created + 1)

/-- `add(element, compress)`. -/
def add (d : QuantileDigest) (element : Nat) (autoCompress : Bool) :
    QuantileDigest × Option QdError :=
  if element > d.maxRange ∨ element < d.minRange then (d, some .valueError)
  else
    let canonical := d.bucketCanonicalId element
    let closest := closestGo d.qdigest canonical canonical
    let d₁ : QuantileDigest :=
      if closest = canonical then
        -- `self._qdigest[canonical] += 1` (the bucket is present here)
        { d with
          qdigest := dset canonical ((dlookup canonical d.qdigest).getD 0 + 1) d.qdigest }
      else
        let mc := ancestorsGo closest canonical canonical (dset canonical 1 d.qdigest) 0
        { d with qdigest := mc.1, numberOfBuckets := d.numberOfBuckets + 1 + mc.2 }
    let d₂ : QuantileDigest :=
      { d₁ with exactBoundaryValue := d₁.exactBoundaryValue.addInv d.compression_factor }
    if autoCompress then (d₂.compress, none) else (d₂, none)

/-- The dict-update loop of `merge`: `for bucket_id, counts in
other._qdigest.items(): self._qdigest.setdefault(bucket_id, 0);
self._qdigest[bucket_id] += counts`. -/
def dunion (base other : List (Nat × Nat)) : List (Nat × Nat) :=
  other.foldl (fun acc kv => dset kv.1 ((dlookup kv.1 acc).getD 0 + kv.2) acc) base

/-- `merge(other)`. -/
def merge (d other : QuantileDigest) : QuantileDigest × Option QdError :=
  if other.compression_factor ≠ d.compression_factor then (d, some .valueError)
  else if other.range_in_bits ≠ d.range_in_bits then (d, some .valueError)
  else
    let m := dunion d.qdigest other.qdigest
    let d₁ : QuantileDigest :=
      { d with qdigest := m,
               numberOfBuckets := m.length,
               exactBoundaryValue := QFrac.ofDiv (dsum m) d.compression_factor }
    (d₁.compress, none)

/-- The comparison behind `_sortkey_buckets_by_range`: Python compares the
tuples `(level, -bucket_id)` lexicographically (so `-x < -y ↔ y < x`). -/
def sortkeyLT (x y : Nat × Nat) : Bool :=
  decide (bucketLevel x.1 < bucketLevel y.1) ||
    (decide (bucketLevel x.1 = bucketLevel y.1) && decide (y.1 < x.1))

/-- Stable insertion into a sorted list (Python's `sorted` is a stable
ascending sort; on the key functions used here all keys are distinct, so
any stable sort produces exactly Python's output). -/
def insertSorted (lt : Nat × Nat → Nat × Nat → Bool) (x : Nat × Nat) :
    List (Nat × Nat) → List (Nat × Nat)
  | [] => [x]
  | y :: ys => if lt y x then y :: insertSorted lt x ys else x :: y :: ys

/-- Stable ascending sort by the strict comparison `lt`. -/
def sortByLT (lt : Nat × Nat → Nat × Nat → Bool) (l : List (Nat × Nat)) :
    List (Nat × Nat) :=
  l.foldr (insertSorted lt) []

/-- `sorted(self._qdigest.items(), key=self._sortkey_buckets_by_range, reverse=True)`. -/
def orderedQdigest (d : QuantileDigest) : List (Nat × Nat) :=
  (sortByLT sortkeyLT d.qdigest).reverse

/-- The accumulation loop of `quantile_query`: add counts until the running
rank exceeds the boundary rank; the loop variable `bucket_id` ends at the
breaking bucket, or at the last bucket if no break happens. -/
def scanRank (boundary : QFrac) : List (Nat × Nat) → Nat → Nat
  | [], _ => 0
  | [(b, _)], _ => b
  | (b, c) :: x :: xs, rank =>
      if QFrac.natGT (rank + c) boundary then b
      else scanRank boundary (x :: xs) (rank + c)

/-- `quantile_query(quantile)`.  On an empty digest the `for` loop never
binds `bucket_id` and the subsequent `self._bucket_range(bucket_id)` raises
`UnboundLocalError`; that path is the `.error .unboundLocalError` branch.
(The model's quantile argument is a non-negative exact fraction, so the
`quantile < 0.0` half of the range check is vacuous here.) -/
def quantileQuery (d : QuantileDigest) (quantile : QFrac) :
    QuantileDigest × Except QdError Nat :=
  if quantile.ltNat 0 || quantile.gtNat 1 then (d, .error .valueError)
  else
    match d.orderedQdigest with
    | [] => (d, .error .unboundLocalError)
    | x :: xs =>
        let boundary_rank := QFrac.natMul d.count quantile
        (d, .ok (d.bucketRange (scanRank boundary_rank (x :: xs) 0)).2)

/-- `inverse_quantile_query(element)`: sum the counts of the buckets whose
sub-range upper bound is strictly below the element. -/
def inverseQuantileQuery (d : QuantileDigest) (element : Nat) :
    QuantileDigest × Except QdError Nat :=
  if element > d.maxRange ∨ element < d.minRange then (d, .error .valueError)
  else
    (d, .ok (d.orderedQdigest.foldl
      (fun rank bc => if element > (d.bucketRange bc.1).2 then rank + bc.2 else rank) 0))

/-- `interval_query(start, end)`.  The C `size_t` subtraction is embedded
as integer subtraction; `inverse_quantile_query` is monotone (proved
below), so the difference is never negative on the checked inputs. -/
def intervalQuery (d : QuantileDigest) (start stop : Nat) :
    QuantileDigest × Except QdError Int :=
  if start ≥ stop then (d, .error .valueError)
  else if start < d.minRange ∨ start > d.maxRange then (d, .error .valueError)
  else if stop < d.minRange ∨ stop > d.maxRange then (d, .error .valueError)
  else
    match (d.inverseQuantileQuery start).2, (d.inverseQuantileQuery stop).2 with
    | .ok start_rank, .ok end_rank => (d, .ok ((end_rank : Int) - (start_rank : Int)))
    | _, _ => (d, .error .valueError)

end QuantileDigest

/-- An `add`/`compress` call in a usage sequence of a digest. -/
inductive QdOp where
  | addOp (v : Nat)
  | compressOp
deriving Repr, DecidableEq

/-- Run a sequence of `add`/`compress` calls (adds with `compress=False`). -/
def runOps : QuantileDigest → List QdOp → QuantileDigest
  | d, [] => d
  | d, QdOp.addOp v :: t => runOps (d.add v false).1 t
  | d, QdOp.compressOp :: t => runOps d.compress t

/-- The number of `add` calls in a sequence. -/
def numAdds (l : List QdOp) : Nat :=
  (l.filter fun o => match o with | QdOp.addOp _ => true | _ => false).length

namespace QuantileDigest

/-- The ordering stated by the specification for the quantile query
(spec §4.1): increasing upper bound of the bucket's sub-range, ties broken
by preferring the smaller (more specific) range.  This definition follows
the spec's words; it is compared against the implemented `orderedQdigest`. -/
def specOrderLT (d : QuantileDigest) (x y : Nat × Nat) : Bool :=
  let rx := d.bucketRange x.1
  let ry := d.bucketRange y.1
  decide (rx.2 < ry.2) ||
    (decide (rx.2 = ry.2) && decide (rx.2 - rx.1 < ry.2 - ry.1))

/-- The quantile query as the specification describes it: scan the buckets
in `specOrderLT` order, accumulate counts, return the sub-range upper bound
of the first bucket whose cumulative count exceeds `quantile * count()`.
This definition follows the spec's words; it is compared against the
implemented `quantileQuery`. -/
def quantileQueryByRange (d : QuantileDigest) (quantile : QFrac) :
    Except QdError Nat :=
  match sortByLT (d.specOrderLT) d.qdigest with
  | [] => .error .valueError
  | x :: xs =>
      let boundary_rank := QFrac.natMul d.count quantile
      .ok (d.bucketRange (scanRank boundary_rank (x :: xs) 0)).2

end QuantileDigest

/-! ## RandomSampling, embedded from src/unnamed/part_009

The calls to Python's random generator (`sample(ids, k=2)`, `randint(0, 1)`
and `sample(candidates, k=capacity)`) are embedded through an oracle of
choice functions, indexed by a per-state use counter; every theorem below
quantifies over all oracles.  The arrays `_array`/`_mask` of `_MetaBuffer`
are embedded as lists of fixed length. -/

inductive RsError where
  | valueError
  | assertionError
  | collapseNoProgress
deriving Repr, DecidableEq

/-- The random choices consumed by `RandomSampling`.  `pick2 i ids` stands
for `sample(ids, k=2)` at the i-th use of the generator, `coin i` for
`randint(0, 1)` and `subsample i xs k` for `sample(xs, k)`. -/
structure RSOracle where
  pick2 : Nat → List Nat → Nat × Nat
  coin : Nat → Bool
  subsample : Nat → List Nat → Nat → List Nat

/-- `_MetaBuffer`: a flattened array of `number_of_buffers` buffers of
`elements_per_buffer` slots each, with an occupancy mask. -/
structure MetaBuffer where
  elements_per_buffer : Nat
  number_of_buffers : Nat
  arr : List Nat
  mask : List Bool
deriving Repr, DecidableEq

namespace MetaBuffer

/-- `__cinit__` after its parameter checks have passed. -/
def init (number_of_buffers elements_per_buffer : Nat) : MetaBuffer :=
  { elements_per_buffer := elements_per_buffer
    number_of_buffers := number_of_buffers
    arr := List.replicate (number_of_buffers * elements_per_buffer) 0
    mask := List.replicate (number_of_buffers * elements_per_buffer) false }

/-- `location(buffer_id)`: the slot index range of a buffer. -/
def location (mb : MetaBuffer) (buffer_id : Nat) : Nat × Nat :=
  (mb.elements_per_buffer * buffer_id,
   mb.elements_per_buffer * buffer_id + mb.elements_per_buffer)

/-- `num_of_elements(buffer_id)`: `sum(mask[start:end])`. -/
def numOfElements (mb : MetaBuffer) (buffer_id : Nat) : Nat :=
  ((mb.mask.drop (mb.location buffer_id).1).take mb.elements_per_buffer).count true

/-- `capacity(buffer_id)`. -/
def capacity (mb : MetaBuffer) (buffer_id : Nat) : Nat :=
  mb.elements_per_buffer - mb.numOfElements buffer_id

/-- `is_empty(buffer_id)`: `not any(mask[start:end])`. -/
def isEmpty (mb : MetaBuffer) (buffer_id : Nat) : Bool :=
  !((mb.mask.drop (mb.location buffer_id).1).take mb.elements_per_buffer).any id

/-- `get_elements(buffer_id)`: the occupied slots of the buffer, in slot
order (`_retrive_elements` with `pop=False`). -/
def getElements (mb : MetaBuffer) (buffer_id : Nat) : List Nat :=
  (List.range mb.elements_per_buffer).filterMap fun i =>
    let idx := (mb.location buffer_id).1 + i
    if mb.mask.getD idx false then some (mb.arr.getD idx 0) else none

/-- The mask-clearing effect of `pop_elements`: every slot of the buffer
ends unoccupied (clearing exactly the set bits leaves the whole slice
false). -/
def clearBuffer (mb : MetaBuffer) (buffer_id : Nat) : MetaBuffer :=
  { mb with mask := (List.range mb.mask.length).map fun idx =>
      if (mb.location buffer_id).1 ≤ idx ∧ idx < (mb.location buffer_id).2 then false
      else mb.mask.getD idx false }

/-- `pop_elements(buffer_id)`: return the occupied slots and clear them. -/
def popElements (mb : MetaBuffer) (buffer_id : Nat) : List Nat × MetaBuffer :=
  (mb.getElements buffer_id, mb.clearBuffer buffer_id)

/-- `populate(buffer_id, elements)`: raises `ValueError` when the elements
do not fit; otherwise walks the whole slot range, popping elements from the
END of the list (`elements.pop()`) into consecutive slots and clearing the
remaining slots.  Slot `start + i` therefore receives element
`elements[len - 1 - i]`. -/
def populate (mb : MetaBuffer) (buffer_id : Nat) (elements : List Nat) :
    Except RsError MetaBuffer :=
  if mb.capacity buffer_id < elements.length then .error .valueError
  else
    let start := (mb.location buffer_id).1
    let k := elements.length
    .ok { mb with
      arr := (List.range mb.arr.length).map fun idx =>
        if start ≤ idx ∧ idx < start + k then
          elements.getD (k - 1 - (idx - start)) 0
        else mb.arr.getD idx 0,
      mask := (List.range mb.mask.length).map fun idx =>
        if start ≤ idx ∧ idx < start + k then true
        else if start + k ≤ idx ∧ idx < start + mb.elements_per_buffer then false
        else mb.mask.getD idx false }

end MetaBuffer

structure RandomSampling where
  height : Nat
  numberOfElements : Nat
  queue : List Nat
  buffer : MetaBuffer
  levels : List Nat
  rngUses : Nat
deriving Repr, DecidableEq

namespace RandomSampling

/-- `__cinit__` after its parameter checks (`number_of_buffers < 2`,
`elements_per_buffer < 1`, `height < 1`) have passed.  The C `_seed` field
only seeds Python's generator, which the oracle stands for; `rngUses` is
the model's position in the oracle streams. -/
def init (number_of_buffers buffer_capacity height : Nat) : RandomSampling :=
  { height := height
    numberOfElements := 0
    queue := []
    buffer := MetaBuffer.init number_of_buffers buffer_capacity
    levels := List.replicate number_of_buffers 0
    rngUses := 0 }

/-- Fuelled ceiling log2: `clog2Go fuel e m` is the least `e' ≥ e` with
`m ≤ 2 ^ e'` (for sufficient fuel). -/
def clog2Go (m : Nat) : Nat → Nat → Nat
  | 0, e => e
  | fuel + 1, e => if m ≤ 2 ^ e then e else clog2Go m fuel (e + 1)

/-- `ceil(log2 m)` for `m ≥ 1`, as the C double computation yields on the
integer inputs reached here. -/
def clog2 (m : Nat) : Nat := clog2Go m m 0

/-- `_active_level()`.  The C code computes
`ceil(log2(n / capacity) - height + 1)` (with `n / capacity` an integer
division) and clamps at 0; `log2(0)` is `-inf` in C, which the clamp also
sends to 0 — that is the `quotient = 0` branch. -/
def activeLevel (s : RandomSampling) : Nat :=
  if s.numberOfElements < 1 then 0
  else
    let quotient := s.numberOfElements / s.buffer.elements_per_buffer
    if quotient = 0 then 0
    else Int.toNat (max 0 ((clog2 quotient : Int) - (s.height : Int) + 1))

/-- The level scan of `_collapse`: the lowest level (up to `max(levels)`)
holding at least two non-empty buffers, together with those buffer ids. -/
def collapseCandidates (s : RandomSampling) : Option (Nat × List Nat) :=
  let max_level := s.levels.foldl max 0
  (List.range (max_level + 1)).firstM fun level =>
    let ids := (List.range s.buffer.number_of_buffers).filter fun buffer_id =>
      decide (s.levels.getD buffer_id 0 = level) && !(s.buffer.isEmpty buffer_id)
    if ids.length ≥ 2 then some (level, ids) else none

/-- `candidates[start::2]`: every other element beginning at `start`. -/
def everyOther : List Nat → List Nat
  | [] => []
  | [x] => [x]
  | x :: _ :: rest => x :: everyOther rest

/-- `_collapse()`: merge two random non-empty buffers of the lowest
populated level into one buffer at the next level.  The `assert` of the
source is the `.error .assertionError` branch. -/
def collapse (O : RSOracle) (s : RandomSampling) : Except RsError RandomSampling :=
  match s.collapseCandidates with
  | none => .error .assertionError
  | some (current_level, ids) =>
      let bb := O.pick2 s.rngUses ids
      let s := { s with rngUses := s.rngUses + 1 }
      let p1 := s.buffer.popElements bb.1
      let p2 := p1.2.popElements bb.2
      let candidates := (p1.1 ++ p2.1).mergeSort (fun a b => a ≤ b)
      let cap := p2.2.capacity bb.1
      let sc :=
        if cap < candidates.length then
          ((everyOther (candidates.drop (if O.coin s.rngUses then 1 else 0))).take cap,
            { s with rngUses := s.rngUses + 1 })
        else (candidates, s)
      match p2.2.populate bb.1 sc.1 with
      | .error e => .error e
      | .ok mb =>
          .ok { sc.2 with
                buffer := mb,
                levels := sc.2.levels.set bb.1 (current_level + 1) }

/-- `_find_empty_buffer()`: scan for an empty buffer; if none, collapse and
scan again.  The source recurses (and with a faithful `sample` one collapse
always frees a buffer); a second failure, unreachable for well-formed
states, is reported as `.error .collapseNoProgress` instead of diverging. -/
def findEmptyBuffer (O : RSOracle) (s : RandomSampling) :
    Except RsError (Nat × RandomSampling) :=
  match (List.range s.buffer.number_of_buffers).find? (fun i => s.buffer.isEmpty i) with
  | some buffer_id => .ok (buffer_id, s)
  | none =>
      match collapse O s with
      | .error e => .error e
      | .ok s' =>
          match (List.range s'.buffer.number_of_buffers).find?
              (fun i => s'.buffer.isEmpty i) with
          | some buffer_id => .ok (buffer_id, s')
          | none => .error .collapseNoProgress

/-- `_commit(force)`. -/
def commit (O : RSOracle) (s : RandomSampling) (force : Bool) :
    Except RsError RandomSampling :=
  let level := s.activeLevel
  let chunk_size := 2 ^ level
  let autocommit_size := chunk_size * s.buffer.elements_per_buffer
  let num_of_candidates := s.queue.length
  if num_of_candidates < 1 then .ok s
  else if num_of_candidates < autocommit_size ∧ !force then .ok s
  else
    let candidates := s.queue.reverse
    let s₁ := { s with
                queue := [],
                numberOfElements := s.numberOfElements + num_of_candidates }
    match findEmptyBuffer O s₁ with
    | .error e => .error e
    | .ok (buffer_id, s₂) =>
        let cap := s₂.buffer.capacity buffer_id
        let cs :=
          if cap < num_of_candidates then
            (O.subsample s₂.rngUses candidates cap, { s₂ with rngUses := s₂.rngUses + 1 })
          else (candidates, s₂)
        match cs.2.buffer.populate buffer_id cs.1 with
        | .error e => .error e
        | .ok mb =>
            .ok { cs.2 with
                  buffer := mb,
                  levels := cs.2.levels.set buffer_id level }

/-- `add(element)`: stage into the queue, then `_commit(force=False)`. -/
def add (O : RSOracle) (s : RandomSampling) (element : Nat) :
    Except RsError RandomSampling :=
  commit O { s with queue := s.queue ++ [element] } false

/-- `count()`. -/
def rsCount (s : RandomSampling) : Nat := s.numberOfElements

/-- The rank accumulation of `inverse_quantile_query`: for every non-empty
buffer, count the stored elements not exceeding the element and weight the
count by `2 ^ level`. -/
def rankOf (s : RandomSampling) (element : Nat) : Nat :=
  (List.range s.buffer.number_of_buffers).foldl
    (fun rank buffer_id =>
      if s.buffer.isEmpty buffer_id then rank
      else
        rank + 2 ^ (s.levels.getD buffer_id 0) *
          ((s.buffer.getElements buffer_id).filter fun x => decide (¬ x > element)).length)
    0

/-- `inverse_quantile_query(element)`: forces a full commit, then sums the
weighted per-buffer counts.  There is no emptiness (or range) check: on an
empty structure the loop body never fires and the rank 0 is returned. -/
def inverseQuantileQuery (O : RSOracle) (s : RandomSampling) (element : Nat) :
    Except RsError (RandomSampling × Nat) :=
  match commit O s true with
  | .error e => .error e
  | .ok s₁ => .ok (s₁, s₁.rankOf element)

/-- `interval_query(start, end)` (integer subtraction embeds the C `size_t`
difference; the rank is monotone, see `RandomSampling.rankOf_mono`). -/
def intervalQuery (O : RSOracle) (s : RandomSampling) (start stop : Nat) :
    Except RsError (RandomSampling × Int) :=
  if start ≥ stop then .error .valueError
  else
    match commit O s true with
    | .error e => .error e
    | .ok s₁ =>
        match inverseQuantileQuery O s₁ start with
        | .error e => .error e
        | .ok (s₂, start_rank) =>
            match inverseQuantileQuery O s₂ stop with
            | .error e => .error e
            | .ok (s₃, end_rank) => .ok (s₃, (end_rank : Int) - (start_rank : Int))

end RandomSampling

/-- Run a sequence of `add` calls against a sampler. -/
def runRsAdds (O : RSOracle) : RandomSampling → List Nat → Except RsError RandomSampling
  | s, [] => .ok s
  | s, v :: t =>
      match RandomSampling.add O s v with
      | .error e => .error e
      | .ok s' => runRsAdds O s' t

/-- A concrete deterministic oracle (used for witnesses): picks the first
two candidate ids, always draws 0, and subsamples by taking a prefix. -/
def detOracle : RSOracle :=
  { pick2 := fun _ ids => (ids.getD 0 0, ids.getD 1 0)
    coin := fun _ => false
    subsample := fun _ xs k => xs.take k }

/-! ## Frame and error-path lemmas -/

instance {e a : Type} [DecidableEq e] [DecidableEq a] : DecidableEq (Except e a) := fun x y =>
  match x, y with
  | .error u, .error w =>
      if h : u = w then .isTrue (congrArg Except.error h)
      else .isFalse fun hc => h (Except.error.inj hc)
  | .ok u, .ok w =>
      if h : u = w then .isTrue (congrArg Except.ok h)
      else .isFalse fun hc => h (Except.ok.inj hc)
  | .error _, .ok _ => .isFalse fun hc => Except.noConfusion hc
  | .ok _, .error _ => .isFalse fun hc => Except.noConfusion hc

theorem commit_empty_queue (O : RSOracle) (s : RandomSampling) (force : Bool)
    (h : s.queue = []) : RandomSampling.commit O s force = .ok s := by
  unfold RandomSampling.commit
  simp [h]

theorem rankOf_zero_of_all_empty (s : RandomSampling)
    (h : ∀ i ∈ List.range s.buffer.number_of_buffers, s.buffer.isEmpty i = true)
    (v : Nat) : s.rankOf v = 0 := by
  unfold RandomSampling.rankOf
  generalize List.range s.buffer.number_of_buffers = l at h
  induction l with
  | nil => rfl
  | cons hd t ih =>
      have hhd := h hd (List.mem_cons_self hd t)
      simp only [List.foldl_cons, hhd, if_pos]
      exact ih fun i hi => h i (List.mem_cons_of_mem hd hi)

/-- C10: the three digest queries never modify the digest: the state
returned by `quantile_query`, `inverse_quantile_query` and `interval_query`
is the digest that was queried, on every path (result or error). -/
theorem c10_digest_queries_pure (d : QuantileDigest) (q : QFrac) (v a b : Nat) :
    (d.quantileQuery q).1 = d ∧ (d.inverseQuantileQuery v).1 = d ∧
      (d.intervalQuery a b).1 = d := by
  refine ⟨?_, ?_, ?_⟩
  · unfold QuantileDigest.quantileQuery
    split
    · rfl
    · split <;> rfl
  · unfold QuantileDigest.inverseQuantileQuery
    split <;> rfl
  · unfold QuantileDigest.intervalQuery
    split
    · rfl
    · split
      · rfl
      · split
        · rfl
        · split <;> rfl

/-- C6: a rejected mutating call leaves the digest unchanged: whenever
`add` raises (its out-of-range `ValueError`) or `merge` raises (mismatched
compression factors or ranges), the returned state has the bucket map, the
bucket counter and the compression-boundary accumulator of the original —
indeed it is the original state. -/
theorem c6_rejected_call_unchanged :
    (∀ (d : QuantileDigest) (v : Nat) (auto : Bool) (e : QdError),
        (d.add v auto).2 = some e →
        (d.add v auto).1.qdigest = d.qdigest ∧
        (d.add v auto).1.numberOfBuckets = d.numberOfBuckets ∧
        (d.add v auto).1.exactBoundaryValue = d.exactBoundaryValue) ∧
    (∀ (A B : QuantileDigest) (e : QdError),
        (A.merge B).2 = some e →
        (A.merge B).1.qdigest = A.qdigest ∧
        (A.merge B).1.numberOfBuckets = A.numberOfBuckets ∧
        (A.merge B).1.exactBoundaryValue = A.exactBoundaryValue) := by
  constructor
  · intro d v auto e h
    unfold QuantileDigest.add at h ⊢
    by_cases h1 : v > d.maxRange ∨ v < d.minRange
    · rw [if_pos h1]
      exact ⟨rfl, rfl, rfl⟩
    · simp only [if_neg h1] at h
      split at h <;> simp at h
  · intro A B e h
    unfold QuantileDigest.merge at h ⊢
    by_cases h1 : B.compression_factor ≠ A.compression_factor
    · rw [if_pos h1]
      exact ⟨rfl, rfl, rfl⟩
    · rw [if_neg h1] at h ⊢
      by_cases h2 : B.range_in_bits ≠ A.range_in_bits
      · rw [if_pos h2]
        exact ⟨rfl, rfl, rfl⟩
      · rw [if_neg h2] at h
        simp at h

/-- Witness for C6 at concrete rejected calls: inserting 9 into a digest
with range `[0, 7]`, and merging digests with compression factors 5 and 4. -/
theorem c6_rejected_call_unchanged_witness :
    ((((QuantileDigest.init 3 5).add 9 false).1.qdigest = (QuantileDigest.init 3 5).qdigest ∧
      ((QuantileDigest.init 3 5).add 9 false).1.numberOfBuckets =
        (QuantileDigest.init 3 5).numberOfBuckets ∧
      ((QuantileDigest.init 3 5).add 9 false).1.exactBoundaryValue =
        (QuantileDigest.init 3 5).exactBoundaryValue) ∧
    (((QuantileDigest.init 3 5).merge (QuantileDigest.init 3 4)).1.qdigest =
        (QuantileDigest.init 3 5).qdigest ∧
      ((QuantileDigest.init 3 5).merge (QuantileDigest.init 3 4)).1.numberOfBuckets =
        (QuantileDigest.init 3 5).numberOfBuckets ∧
      ((QuantileDigest.init 3 5).merge (QuantileDigest.init 3 4)).1.exactBoundaryValue =
        (QuantileDigest.init 3 5).exactBoundaryValue)) :=
  ⟨c6_rejected_call_unchanged.1 (QuantileDigest.init 3 5) 9 false .valueError (by decide),
   c6_rejected_call_unchanged.2 (QuantileDigest.init 3 5) (QuantileDigest.init 3 4)
     .valueError (by decide)⟩

/-- The digest reached by: `QuantileDigest(2, 2)`; `add(0)`; `add(1)`;
`add(2)`; `add(3)`; `compress()`; `add(3)`; `add(3)`; `compress()`.
Its bucket map is `{2: 2, 3: 2, 7: 2}` (see `c2_quantile_order_bug`). -/
def c2Digest : QuantileDigest :=
  runOps (QuantileDigest.init 2 2)
    [QdOp.addOp 0, QdOp.addOp 1, QdOp.addOp 2, QdOp.addOp 3, QdOp.compressOp,
     QdOp.addOp 3, QdOp.addOp 3, QdOp.compressOp]

/-- C2: the implemented quantile query does NOT scan the buckets in
increasing order of their sub-range upper bounds: its sort key
`(level, -bucket_id)` with `reverse=True` puts deeper buckets first.  On
the reachable digest `c2Digest` (bucket map `{2: 2, 3: 2, 7: 2}`, six
elements inserted) the implementation scans `[7, 2, 3]`, while the order
the specification and the code's own docstring describe is `[2, 7, 3]`
(bucket 2 spans `[0, 1]`, upper bound 1; buckets 7 and 3 have upper bound
3).  For `quantile_query(0.25)` the code returns 3, the documented
procedure returns 1. -/
theorem c2_quantile_order_bug :
    c2Digest.qdigest = [(2, 2), (3, 2), (7, 2)] ∧
    c2Digest.count = 6 ∧
    c2Digest.orderedQdigest = [(7, 2), (2, 2), (3, 2)] ∧
    QuantileDigest.sortByLT (c2Digest.specOrderLT) c2Digest.qdigest =
      [(2, 2), (7, 2), (3, 2)] ∧
    (c2Digest.quantileQuery ⟨1, 4⟩).2 = .ok 3 ∧
    c2Digest.quantileQueryByRange ⟨1, 4⟩ = .ok 1 := by decide

/-- The digest reached by `QuantileDigest(1, 5)`; `add(0)`: the bucket map
is `{2: 1, 1: 0}` and two buckets are retained. -/
def c7Digest : QuantileDigest := ((QuantileDigest.init 1 5).add 0 false).1

/-- C7 counterexample: a digest with 2 retained buckets and compression
factor 5 (so `len ≤ compression_factor`) for which `compress()` of
`src/unnamed/part_010` is NOT a no-op: it merges the family into the root,
leaving bucket map `{1: 1}`. -/
theorem c7_compress_counterexample :
    c7Digest.numberOfBuckets ≤ c7Digest.compression_factor ∧
    c7Digest.compress ≠ c7Digest := by decide

/-- C7 amended: the `compress()` of `src/pdsa/rank/qdigest.pyx` is a no-op
whenever the number of retained buckets is at most the compression factor;
the `compress()` of `src/unnamed/part_010` only returns early when fewer
than two buckets are retained (and can modify the digest otherwise, see
`c7_compress_counterexample`). -/
theorem c7_compress_noop :
    (∀ d : QuantileDigest, d.numberOfBuckets ≤ d.compression_factor →
      d.compressPyx = d) ∧
    (∀ d : QuantileDigest, d.numberOfBuckets < 2 → d.compress = d) := by
  constructor
  · intro d h
    unfold QuantileDigest.compressPyx
    simp [h]
  · intro d h
    unfold QuantileDigest.compress
    simp [h]

/-- Witness for C7 at concrete digests: `c7Digest` (2 buckets, factor 5)
under the pyx compress, and a fresh digest (0 buckets) under the part_010
compress. -/
theorem c7_compress_noop_witness :
    c7Digest.compressPyx = c7Digest ∧
    (QuantileDigest.init 3 5).compress = QuantileDigest.init 3 5 :=
  ⟨c7_compress_noop.1 c7Digest (by decide),
   c7_compress_noop.2 (QuantileDigest.init 3 5) (by decide)⟩

/-- C4 counterexample: `inverse_quantile_query` on an empty
`RandomSampling(5, 5, 3)` does not raise — it silently returns rank 0. -/
theorem c4_empty_sampler_counterexample :
    RandomSampling.inverseQuantileQuery detOracle (RandomSampling.init 5 5 3) 10 =
      .ok (RandomSampling.init 5 5 3, 0) := by decide

/-- C4 amended: on an empty QuantileDigest, `quantile_query` does raise —
but an `UnboundLocalError` (the loop variable is never bound), not the
`ValueError` used for contract violations; and on an empty
`RandomSampling`, `inverse_quantile_query` raises nothing and silently
returns 0. -/
theorem c4_empty_query_behaviour :
    (∀ (d : QuantileDigest) (q : QFrac), d.qdigest = [] →
        (q.ltNat 0 || q.gtNat 1) = false →
        (d.quantileQuery q).2 = .error .unboundLocalError) ∧
    (∀ (O : RSOracle) (s : RandomSampling) (v : Nat), s.queue = [] →
        (∀ i ∈ List.range s.buffer.number_of_buffers, s.buffer.isEmpty i = true) →
        RandomSampling.inverseQuantileQuery O s v = .ok (s, 0)) := by
  constructor
  · intro d q hmap hq
    unfold QuantileDigest.quantileQuery
    rw [if_neg (by simp [hq])]
    have : d.orderedQdigest = [] := by
      simp [QuantileDigest.orderedQdigest, QuantileDigest.sortByLT, hmap]
    rw [this]
  · intro O s v hq hbuf
    unfold RandomSampling.inverseQuantileQuery
    rw [commit_empty_queue O s true hq]
    show Except.ok (s, s.rankOf v) = Except.ok (s, 0)
    rw [rankOf_zero_of_all_empty s hbuf v]

/-- Witness for C4 at concrete empty structures: a fresh
`QuantileDigest(4, 3)` queried at quantile 1/2, and a fresh
`RandomSampling(2, 3, 1)` queried at element 7. -/
theorem c4_empty_query_behaviour_witness :
    ((QuantileDigest.init 4 3).quantileQuery ⟨1, 2⟩).2 = .error .unboundLocalError ∧
    RandomSampling.inverseQuantileQuery detOracle (RandomSampling.init 2 3 1) 7 =
      .ok (RandomSampling.init 2 3 1, 0) :=
  ⟨c4_empty_query_behaviour.1 (QuantileDigest.init 4 3) ⟨1, 2⟩ rfl (by decide),
   c4_empty_query_behaviour.2 detOracle (RandomSampling.init 2 3 1) 7 rfl (by decide)⟩

/-! ## Conservation of counts (C1) -/

theorem bucketSiblingId_eq (b : Nat) :
    QuantileDigest.bucketSiblingId b = if b % 2 = 0 then b + 1 else b - 1 := by
  unfold QuantileDigest.bucketSiblingId
  rcases Nat.mod_two_eq_zero_or_one b with h | h
  · rw [h, show Nat.xor 0 1 = 1 from by decide, if_pos rfl]
    omega
  · rw [h, show Nat.xor 1 1 = 0 from by decide, if_neg (by omega)]
    omega

theorem closestGo_eq_zero_or_mem (m : List (Nat × Nat)) :
    ∀ fuel b, b ≤ fuel → QuantileDigest.closestGo m fuel b ≠ b →
      dlookup b m = none := by
  intro fuel b hle hne
  match fuel, b with
  | 0, b =>
      interval_cases b
      exact absurd rfl hne
  | fuel + 1, b =>
      unfold QuantileDigest.closestGo at hne
      by_cases hb : b = 0
      · subst hb; exact absurd rfl hne
      · rw [if_neg hb] at hne
        by_cases hs : (dlookup b m).isSome
        · rw [if_pos hs] at hne; exact absurd rfl hne
        · exact Option.not_isSome_iff_eq_none.mp hs

theorem ancestorsGo_dsum (m : List (Nat × Nat)) :
    ∀ fuel b M c acc, b ≤ fuel →
      QuantileDigest.closestGo m fuel b = c →
      (∀ x, 1 ≤ x → x ≤ b / 2 → dlookup x M = dlookup x m) →
      dsum (QuantileDigest.ancestorsGo c fuel b M acc).1 = dsum M := by
  intro fuel
  induction fuel with
  | zero =>
      intro b M c acc hle _ _
      unfold QuantileDigest.ancestorsGo
      rfl
  | succ f ih =>
      intro b M c acc hle hc hM
      unfold QuantileDigest.ancestorsGo
      by_cases hb : b = 0
      · rw [if_pos hb]
      · rw [if_neg hb]
        by_cases hbc : b / 2 ≤ c
        · rw [if_pos hbc]
        · rw [if_neg hbc]
          unfold QuantileDigest.closestGo at hc
          rw [if_neg hb] at hc
          by_cases hs : (dlookup b m).isSome
          · rw [if_pos hs] at hc
            exact absurd (le_of_lt (by omega : b / 2 < c)) (by omega)
          · rw [if_neg hs] at hc
            have hb2 : 1 ≤ b / 2 := by omega
            have hb2f : b / 2 ≤ f := by omega
            have hnone : dlookup (b / 2) m = none := by
              apply closestGo_eq_zero_or_mem m f (b / 2) hb2f
              intro heq
              rw [heq] at hc
              omega
            have hMnone : dlookup (b / 2) M = none := by
              rw [hM (b / 2) hb2 (le_refl _)]; exact hnone
            have hstep := ih (b / 2) (dset (b / 2) 0 M) c (acc + 1) hb2f hc ?_
            · rw [hstep, dsum_dset_absent _ _ _ hMnone]
              omega
            · intro x hx1 hx2
              have hxne : b / 2 ≠ x := by omega
              rw [dlookup_dset_ne _ _ _ _ hxne]
              exact hM x hx1 (by omega)

theorem add_count (d : QuantileDigest) (v : Nat)
    (h : ¬(v > d.maxRange ∨ v < d.minRange)) :
    (d.add v false).1.count = d.count + 1 := by
  unfold QuantileDigest.add
  rw [if_neg h]
  dsimp only
  set canonical := d.bucketCanonicalId v with hcan
  by_cases hc : QuantileDigest.closestGo d.qdigest canonical canonical = canonical
  · rw [if_pos hc]
    show dsum (dset canonical ((dlookup canonical d.qdigest).getD 0 + 1) d.qdigest) =
      dsum d.qdigest + 1
    cases hl : dlookup canonical d.qdigest with
    | none => rw [dsum_dset_absent _ _ _ hl]; rfl
    | some c =>
        simp only [Option.getD_some]
        have := dsum_dset_present canonical (c + 1) c d.qdigest hl
        omega
  · rw [if_neg hc]
    show dsum (QuantileDigest.ancestorsGo _ canonical canonical
        (dset canonical 1 d.qdigest) 0).1 = dsum d.qdigest + 1
    have hnone : dlookup canonical d.qdigest = none :=
      closestGo_eq_zero_or_mem d.qdigest canonical canonical (le_refl _) hc
    rw [ancestorsGo_dsum d.qdigest canonical canonical
      (dset canonical 1 d.qdigest) _ 0 (le_refl _) rfl ?_]
    · rw [dsum_dset_absent _ _ _ hnone]
    · intro x hx1 hx2
      have : canonical ≠ x := by omega
      rw [dlookup_dset_ne _ _ _ _ this]

theorem derase_of_none (k : Nat) (m : List (Nat × Nat))
    (h : dlookup k m = none) : derase k m = m := by
  induction m with
  | nil => rfl
  | cons hd t ih =>
      obtain ⟨k₀, v₀⟩ := hd
      by_cases h₀ : k₀ = k
      · simp [dlookup, h₀] at h
      · simp [dlookup, h₀] at h
        simp [derase, h₀, ih h]

theorem deleteBucket_qdigest (d : QuantileDigest) (b : Nat) :
    (d.deleteBucketIfExists b).1.qdigest = derase b d.qdigest := by
  unfold QuantileDigest.deleteBucketIfExists
  cases h : dlookup b d.qdigest with
  | none => exact (derase_of_none _ _ h).symm
  | some c => rfl

theorem deleteBucket_count (d : QuantileDigest) (b : Nat) :
    (d.deleteBucketIfExists b).1.count + (dlookup b d.qdigest).getD 0 = d.count := by
  unfold QuantileDigest.deleteBucketIfExists
  cases h : dlookup b d.qdigest with
  | none => rfl
  | some c =>
      show dsum (derase b d.qdigest) + c = dsum d.qdigest
      exact dsum_derase b c d.qdigest h

theorem dsum_family_merge (mq : List (Nat × Nat)) (b p s c fam : Nat)
    (hpb : p ≠ b) (hsb : s ≠ b) (hps : p ≠ s)
    (hlb : dlookup b mq = some c)
    (hfam : fam = c + (dlookup p mq).getD 0 + (dlookup s mq).getD 0) :
    dsum (derase s (derase b (dset p fam mq))) = dsum mq := by
  have hlb' : dlookup b (dset p fam mq) = some c := by
    rw [dlookup_dset_ne _ _ _ _ hpb, hlb]
  have h2 := dsum_derase b c _ hlb'
  have hls' : dlookup s (derase b (dset p fam mq)) = dlookup s mq := by
    rw [dlookup_derase_ne _ _ _ hsb.symm, dlookup_dset_ne _ _ _ _ hps]
  cases hlp : dlookup p mq with
  | none =>
      have h1 := dsum_dset_absent p fam mq hlp
      rw [hlp] at hfam
      cases hls : dlookup s mq with
      | none =>
          rw [derase_of_none s _ (hls'.trans hls)]
          rw [hls] at hfam
          simp only [Option.getD_none] at hfam
          omega
      | some cs =>
          have h3 := dsum_derase s cs _ (hls'.trans hls)
          rw [hls] at hfam
          simp only [Option.getD_none, Option.getD_some] at hfam
          omega
  | some cp =>
      have h1 := dsum_dset_present p fam cp mq hlp
      rw [hlp] at hfam
      cases hls : dlookup s mq with
      | none =>
          rw [derase_of_none s _ (hls'.trans hls)]
          rw [hls] at hfam
          simp only [Option.getD_none, Option.getD_some] at hfam
          omega
      | some cs =>
          have h3 := dsum_derase s cs _ (hls'.trans hls)
          rw [hls] at hfam
          simp only [Option.getD_none, Option.getD_some] at hfam
          omega

theorem mergeIfNeeded_count (d : QuantileDigest) (b : Nat) (hb : 1 ≤ b) :
    (d.mergeIfNeeded b).count = d.count := by
  unfold QuantileDigest.mergeIfNeeded
  cases hl : dlookup b d.qdigest with
  | none => rfl
  | some c =>
      dsimp only
      by_cases hb1 : b = 1
      · rw [if_pos hb1]
        by_cases hc0 : c ≤ 0
        · rw [if_pos hc0]
          subst hb1
          have hdel := deleteBucket_count d 1
          rw [hl] at hdel
          simp only [Option.getD_some] at hdel
          omega
        · rw [if_neg hc0]
      · rw [if_neg hb1]
        by_cases hw : d.isWorthToStore
            (c + (dlookup (QuantileDigest.bucketParentId b) d.qdigest).getD 0 +
              (dlookup (QuantileDigest.bucketSiblingId b) d.qdigest).getD 0)
        · rw [if_pos hw]
        · rw [if_neg hw]
          have hb2 : 2 ≤ b := by omega
          have hpdef : QuantileDigest.bucketParentId b = b / 2 := rfl
          have hsib := bucketSiblingId_eq b
          have hpb : QuantileDigest.bucketParentId b ≠ b := by rw [hpdef]; omega
          have hsb : QuantileDigest.bucketSiblingId b ≠ b := by
            rcases Nat.mod_two_eq_zero_or_one b with h2 | h2
            · rw [hsib, if_pos h2]; omega
            · rw [hsib, if_neg (by omega)]; omega
          have hps : QuantileDigest.bucketParentId b ≠ QuantileDigest.bucketSiblingId b := by
            rw [hpdef]
            rcases Nat.mod_two_eq_zero_or_one b with h2 | h2
            · rw [hsib, if_pos h2]; omega
            · rw [hsib, if_neg (by omega)]; omega
          unfold QuantileDigest.count
          rw [deleteBucket_qdigest, deleteBucket_qdigest]
          exact dsum_family_merge d.qdigest b _ _ c _ hpb hsb hps hl rfl

theorem foldl_mergeIfNeeded_count :
    ∀ (l : List Nat) (d : QuantileDigest), (∀ x ∈ l, 1 ≤ x) →
      (List.foldl QuantileDigest.mergeIfNeeded d l).count = d.count := by
  intro l
  induction l with
  | nil => intro d _; rfl
  | cons x t ih =>
      intro d h
      rw [List.foldl_cons, ih _ (fun y hy => h y (List.mem_cons_of_mem x hy)),
        mergeIfNeeded_count d x (h x (List.mem_cons_self x t))]

theorem mem_bucketsOnLevel_pos (d : QuantileDigest) (L x : Nat)
    (h : x ∈ d.bucketsOnLevel L) : 1 ≤ x := by
  unfold QuantileDigest.bucketsOnLevel at h
  have := List.of_mem_filter h
  simp only [Bool.and_eq_true, decide_eq_true_eq] at this
  have h2 : (1 : Nat) ≤ 2 ^ (L - 1) := Nat.one_le_two_pow
  omega

theorem compressLevels_count :
    ∀ (L : Nat) (d : QuantileDigest), (QuantileDigest.compressLevels L d).count = d.count := by
  intro L
  induction L with
  | zero => intro d; rfl
  | succ n ih =>
      intro d
      unfold QuantileDigest.compressLevels
      rw [ih, foldl_mergeIfNeeded_count _ _ (fun x hx => mem_bucketsOnLevel_pos d (n + 1) x hx)]

theorem compress_count (d : QuantileDigest) : d.compress.count = d.count := by
  unfold QuantileDigest.compress
  by_cases h : d.numberOfBuckets < 2
  · rw [if_pos h]
  · rw [if_neg h, compressLevels_count]

theorem deleteBucket_frame (d : QuantileDigest) (b : Nat) :
    (d.deleteBucketIfExists b).1.maxRange = d.maxRange ∧
      (d.deleteBucketIfExists b).1.minRange = d.minRange := by
  unfold QuantileDigest.deleteBucketIfExists
  cases dlookup b d.qdigest <;> exact ⟨rfl, rfl⟩

theorem mergeIfNeeded_frame (d : QuantileDigest) (b : Nat) :
    (d.mergeIfNeeded b).maxRange = d.maxRange ∧
      (d.mergeIfNeeded b).minRange = d.minRange := by
  unfold QuantileDigest.mergeIfNeeded
  cases dlookup b d.qdigest with
  | none => exact ⟨rfl, rfl⟩
  | some c =>
      dsimp only
      by_cases hb1 : b = 1
      · rw [if_pos hb1]
        by_cases hc0 : c ≤ 0
        · rw [if_pos hc0]; exact deleteBucket_frame _ _
        · rw [if_neg hc0]; exact ⟨rfl, rfl⟩
      · rw [if_neg hb1]
        by_cases hw : d.isWorthToStore
            (c + (dlookup (QuantileDigest.bucketParentId b) d.qdigest).getD 0 +
              (dlookup (QuantileDigest.bucketSiblingId b) d.qdigest).getD 0)
        · rw [if_pos hw]; exact ⟨rfl, rfl⟩
        · rw [if_neg hw]
          obtain ⟨h1, h2⟩ := deleteBucket_frame
            ((({ d with
                numberOfBuckets :=
                  if dlookup (QuantileDigest.bucketParentId b) d.qdigest = none then
                    d.numberOfBuckets + 1
                  else d.numberOfBuckets,
                qdigest := dset (QuantileDigest.bucketParentId b)
                  (c + (dlookup (QuantileDigest.bucketParentId b) d.qdigest).getD 0 +
                    (dlookup (QuantileDigest.bucketSiblingId b) d.qdigest).getD 0)
                  d.qdigest } : QuantileDigest).deleteBucketIfExists b).1)
            (QuantileDigest.bucketSiblingId b)
          obtain ⟨h3, h4⟩ := deleteBucket_frame
            ({ d with
                numberOfBuckets :=
                  if dlookup (QuantileDigest.bucketParentId b) d.qdigest = none then
                    d.numberOfBuckets + 1
                  else d.numberOfBuckets,
                qdigest := dset (QuantileDigest.bucketParentId b)
                  (c + (dlookup (QuantileDigest.bucketParentId b) d.qdigest).getD 0 +
                    (dlookup (QuantileDigest.bucketSiblingId b) d.qdigest).getD 0)
                  d.qdigest } : QuantileDigest) b
          exact ⟨h1.trans h3, h2.trans h4⟩

theorem compressLevels_frame :
    ∀ (L : Nat) (d : QuantileDigest),
      (QuantileDigest.compressLevels L d).maxRange = d.maxRange ∧
        (QuantileDigest.compressLevels L d).minRange = d.minRange := by
  intro L
  induction L with
  | zero => intro d; exact ⟨rfl, rfl⟩
  | succ n ih =>
      intro d
      unfold QuantileDigest.compressLevels
      obtain ⟨h1, h2⟩ := ih ((d.bucketsOnLevel (n + 1)).foldl QuantileDigest.mergeIfNeeded d)
      have hf : ∀ (l : List Nat) (d' : QuantileDigest),
          (l.foldl QuantileDigest.mergeIfNeeded d').maxRange = d'.maxRange ∧
            (l.foldl QuantileDigest.mergeIfNeeded d').minRange = d'.minRange := by
        intro l
        induction l with
        | nil => intro d'; exact ⟨rfl, rfl⟩
        | cons x t iht =>
            intro d'
            rw [List.foldl_cons]
            obtain ⟨g1, g2⟩ := iht (d'.mergeIfNeeded x)
            obtain ⟨g3, g4⟩ := mergeIfNeeded_frame d' x
            exact ⟨g1.trans g3, g2.trans g4⟩
      obtain ⟨h3, h4⟩ := hf (d.bucketsOnLevel (n + 1)) d
      exact ⟨h1.trans h3, h2.trans h4⟩

theorem compress_frame (d : QuantileDigest) :
    d.compress.maxRange = d.maxRange ∧ d.compress.minRange = d.minRange := by
  unfold QuantileDigest.compress
  by_cases h : d.numberOfBuckets < 2
  · rw [if_pos h]; exact ⟨rfl, rfl⟩
  · rw [if_neg h]; exact compressLevels_frame _ _

theorem add_frame (d : QuantileDigest) (v : Nat) :
    (d.add v false).1.maxRange = d.maxRange ∧ (d.add v false).1.minRange = d.minRange := by
  unfold QuantileDigest.add
  by_cases h : v > d.maxRange ∨ v < d.minRange
  · rw [if_pos h]; exact ⟨rfl, rfl⟩
  · rw [if_neg h]
    dsimp only
    by_cases hc : QuantileDigest.closestGo d.qdigest (d.bucketCanonicalId v)
        (d.bucketCanonicalId v) = d.bucketCanonicalId v
    · rw [if_pos hc]; exact ⟨rfl, rfl⟩
    · rw [if_neg hc]; exact ⟨rfl, rfl⟩

theorem numAdds_cons_add (v : Nat) (t : List QdOp) :
    numAdds (QdOp.addOp v :: t) = numAdds t + 1 := by
  simp [numAdds]

theorem numAdds_cons_compress (t : List QdOp) :
    numAdds (QdOp.compressOp :: t) = numAdds t := by
  simp [numAdds]

theorem runOps_count :
    ∀ (ops : List QdOp) (d : QuantileDigest),
      (∀ v, QdOp.addOp v ∈ ops → v ≤ d.maxRange ∧ d.minRange ≤ v) →
      (runOps d ops).count = d.count + numAdds ops := by
  intro ops
  induction ops with
  | nil =>
      intro d _
      show d.count = d.count + numAdds []
      rfl
  | cons op t ih =>
      intro d h
      cases op with
      | addOp v =>
          obtain ⟨hv1, hv2⟩ := h v (List.mem_cons_self _ _)
          show (runOps (d.add v false).1 t).count = d.count + numAdds (QdOp.addOp v :: t)
          rw [ih (d.add v false).1 ?_, add_count d v (by omega),
            numAdds_cons_add]
          · omega
          · intro w hw
            obtain ⟨f1, f2⟩ := add_frame d v
            obtain ⟨g1, g2⟩ := h w (List.mem_cons_of_mem _ hw)
            rw [f1, f2]
            exact ⟨g1, g2⟩
      | compressOp =>
          show (runOps d.compress t).count = d.count + numAdds (QdOp.compressOp :: t)
          rw [ih d.compress ?_, compress_count, numAdds_cons_compress]
          intro w hw
          obtain ⟨f1, f2⟩ := compress_frame d
          obtain ⟨g1, g2⟩ := h w (List.mem_cons_of_mem _ hw)
          rw [f1, f2]
          exact ⟨g1, g2⟩

/-- C1: conservation — for every sequence of in-range `add` calls with any
number of interleaved `compress` calls, `count()` (the sum of all bucket
counts) equals the number of `add` calls: `add` raises the sum by exactly 1
and every family merge of `compress` (and its zero-count root deletion)
leaves the sum unchanged. -/
theorem c1_conservation (R k : Nat) (ops : List QdOp) (hk : 1 ≤ k)
    (hv : ∀ v, QdOp.addOp v ∈ ops → v ≤ 2 ^ R - 1) :
    (runOps (QuantileDigest.init R k) ops).count = numAdds ops := by
  have h := runOps_count ops (QuantileDigest.init R k) ?_
  · rw [h]
    have h0 : (QuantileDigest.init R k).count = 0 := rfl
    omega
  · intro v hvmem
    exact ⟨hv v hvmem, Nat.zero_le v⟩

/-- Witness for C1 on the concrete run `QuantileDigest(2, 2)`;
`add(1)`; `compress()`; `add(2)`: two elements were added and `count()`
is 2. -/
theorem c1_conservation_witness :
    (runOps (QuantileDigest.init 2 2)
      [QdOp.addOp 1, QdOp.compressOp, QdOp.addOp 2]).count = 2 :=
  c1_conservation 2 2 [QdOp.addOp 1, QdOp.compressOp, QdOp.addOp 2]
    (by decide)
    (by
      intro v hv
      simp only [List.mem_cons, List.not_mem_nil, or_false] at hv
      rcases hv with h | h | h
      · injection h with h'
        subst h'
        decide
      · exact QdOp.noConfusion h
      · injection h with h'
        subst h'
        decide)

/-! ## Rank consistency (C3) -/

theorem rankFold_mono (d : QuantileDigest) (a b : Nat) (hab : a ≤ b) :
    ∀ (l : List (Nat × Nat)) (r₁ r₂ : Nat), r₁ ≤ r₂ →
      l.foldl (fun rank bc =>
        if a > (d.bucketRange bc.1).2 then rank + bc.2 else rank) r₁ ≤
      l.foldl (fun rank bc =>
        if b > (d.bucketRange bc.1).2 then rank + bc.2 else rank) r₂ := by
  intro l
  induction l with
  | nil => intro r₁ r₂ h; exact h
  | cons x t ih =>
      intro r₁ r₂ h
      rw [List.foldl_cons, List.foldl_cons]
      apply ih
      by_cases ha : a > (d.bucketRange x.1).2
      · rw [if_pos ha, if_pos (by omega)]
        omega
      · rw [if_neg ha]
        by_cases hb : b > (d.bucketRange x.1).2
        · rw [if_pos hb]; omega
        · rw [if_neg hb]; exact h

theorem iqq_ok (d : QuantileDigest) (v : Nat) (h1 : v ≤ d.maxRange)
    (h2 : d.minRange ≤ v) :
    d.inverseQuantileQuery v = (d, .ok (d.orderedQdigest.foldl
      (fun rank bc =>
        if v > (d.bucketRange bc.1).2 then rank + bc.2 else rank) 0)) := by
  unfold QuantileDigest.inverseQuantileQuery
  rw [if_neg (by omega)]

/-- C3: rank consistency.  For every digest state and in-range `a < b`,
`interval_query(a, b)` returns `inverse_quantile_query(b) -
inverse_quantile_query(a)`; `inverse_quantile_query` is non-decreasing in
its argument; and the same difference identity holds for `RandomSampling`'s
`interval_query` on any state whose staging queue has been flushed (for any
outcome of the random draws). -/
theorem c3_rank_consistency :
    (∀ (d : QuantileDigest) (a b : Nat), a < b → b ≤ d.maxRange →
        d.minRange ≤ a →
        ∃ ra rb, d.inverseQuantileQuery a = (d, .ok ra) ∧
          d.inverseQuantileQuery b = (d, .ok rb) ∧
          d.intervalQuery a b = (d, .ok ((rb : Int) - (ra : Int)))) ∧
    (∀ (d : QuantileDigest) (a b : Nat), a ≤ b → b ≤ d.maxRange →
        d.minRange ≤ a →
        ∃ ra rb, d.inverseQuantileQuery a = (d, .ok ra) ∧
          d.inverseQuantileQuery b = (d, .ok rb) ∧ ra ≤ rb) ∧
    (∀ (O : RSOracle) (s : RandomSampling) (a b : Nat), s.queue = [] → a < b →
        ∃ ra rb, RandomSampling.inverseQuantileQuery O s a = .ok (s, ra) ∧
          RandomSampling.inverseQuantileQuery O s b = .ok (s, rb) ∧
          RandomSampling.intervalQuery O s a b = .ok (s, (rb : Int) - (ra : Int))) := by
  refine ⟨?_, ?_, ?_⟩
  · intro d a b hab hbmax hamin
    have ha := iqq_ok d a (by omega) hamin
    have hb := iqq_ok d b hbmax (by omega)
    refine ⟨_, _, ha, hb, ?_⟩
    unfold QuantileDigest.intervalQuery
    rw [if_neg (by omega), if_neg (by omega), if_neg (by omega), ha, hb]
  · intro d a b hab hbmax hamin
    have ha := iqq_ok d a (by omega) hamin
    have hb := iqq_ok d b hbmax (by omega)
    exact ⟨_, _, ha, hb, rankFold_mono d a b hab d.orderedQdigest 0 0 (le_refl 0)⟩
  · intro O s a b hq hab
    have hc := commit_empty_queue O s true hq
    have hiqq : ∀ v, RandomSampling.inverseQuantileQuery O s v = .ok (s, s.rankOf v) := by
      intro v
      unfold RandomSampling.inverseQuantileQuery
      rw [hc]
    refine ⟨s.rankOf a, s.rankOf b, hiqq a, hiqq b, ?_⟩
    unfold RandomSampling.intervalQuery
    rw [if_neg (by omega), hc]
    show (match RandomSampling.inverseQuantileQuery O s a with
      | Except.error e => (Except.error e : Except RsError (RandomSampling × Int))
      | Except.ok (s₂, start_rank) =>
          match RandomSampling.inverseQuantileQuery O s₂ b with
          | Except.error e => Except.error e
          | Except.ok (s₃, end_rank) =>
              Except.ok (s₃, (end_rank : Int) - (start_rank : Int))) =
      Except.ok (s, (s.rankOf b : Int) - (s.rankOf a : Int))
    rw [hiqq a]
    show (match RandomSampling.inverseQuantileQuery O s b with
      | Except.error e => (Except.error e : Except RsError (RandomSampling × Int))
      | Except.ok (s₃, end_rank) =>
          Except.ok (s₃, (end_rank : Int) - ((s.rankOf a : Nat) : Int))) =
      Except.ok (s, (s.rankOf b : Int) - (s.rankOf a : Int))
    rw [hiqq b]

/-- The digest used by the C3 witness: `QuantileDigest(1, 5)`; `add(0)`. -/
def c3Digest : QuantileDigest := ((QuantileDigest.init 1 5).add 0 false).1

/-- Witness for C3 at concrete inputs: the digest `c3Digest` with `a = 0 <
b = 1` and a fresh `RandomSampling(2, 2, 1)` (empty queue) with `a = 0 <
b = 5`. -/
theorem c3_rank_consistency_witness :
    (∃ ra rb, c3Digest.inverseQuantileQuery 0 = (c3Digest, .ok ra) ∧
      c3Digest.inverseQuantileQuery 1 = (c3Digest, .ok rb) ∧
      c3Digest.intervalQuery 0 1 = (c3Digest, .ok ((rb : Int) - (ra : Int)))) ∧
    (∃ ra rb, c3Digest.inverseQuantileQuery 0 = (c3Digest, .ok ra) ∧
      c3Digest.inverseQuantileQuery 1 = (c3Digest, .ok rb) ∧ ra ≤ rb) ∧
    (∃ ra rb,
      RandomSampling.inverseQuantileQuery detOracle (RandomSampling.init 2 2 1) 0 =
        .ok (RandomSampling.init 2 2 1, ra) ∧
      RandomSampling.inverseQuantileQuery detOracle (RandomSampling.init 2 2 1) 5 =
        .ok (RandomSampling.init 2 2 1, rb) ∧
      RandomSampling.intervalQuery detOracle (RandomSampling.init 2 2 1) 0 5 =
        .ok (RandomSampling.init 2 2 1, (rb : Int) - (ra : Int))) :=
  ⟨c3_rank_consistency.1 c3Digest 0 1 (by decide) (by decide) (by decide),
   c3_rank_consistency.2.1 c3Digest 0 1 (by decide) (by decide) (by decide),
   c3_rank_consistency.2.2 detOracle (RandomSampling.init 2 2 1) 0 5 rfl (by decide)⟩

/-! ## The sampler's element counter (C9) -/

theorem collapse_frame (O : RSOracle) (s s' : RandomSampling)
    (h : RandomSampling.collapse O s = .ok s') :
    s'.numberOfElements = s.numberOfElements ∧ s'.queue = s.queue := by
  unfold RandomSampling.collapse at h
  cases hcc : s.collapseCandidates with
  | none => rw [hcc] at h; exact absurd h (by simp)
  | some lv =>
      obtain ⟨current_level, ids⟩ := lv
      rw [hcc] at h
      dsimp only at h
      split at h
      · exact absurd h (by simp)
      · injection h with h'
        subst h'
        constructor <;> (dsimp only; split <;> rfl)

theorem findEmptyBuffer_frame (O : RSOracle) (s : RandomSampling) (bid : Nat)
    (s' : RandomSampling)
    (h : RandomSampling.findEmptyBuffer O s = .ok (bid, s')) :
    s'.numberOfElements = s.numberOfElements ∧ s'.queue = s.queue := by
  unfold RandomSampling.findEmptyBuffer at h
  split at h
  · injection h with h'
    injection h' with h1 h2
    subst h2
    exact ⟨rfl, rfl⟩
  · split at h
    · exact absurd h (by simp)
    · rename_i s₁ hcol
      split at h
      · injection h with h'
        injection h' with h1 h2
        subst h2
        exact collapse_frame O s s₁ hcol
      · exact absurd h (by simp)

theorem commit_inv (O : RSOracle) (s : RandomSampling) (force : Bool)
    (s' : RandomSampling) (h : RandomSampling.commit O s force = .ok s') :
    s'.numberOfElements + s'.queue.length =
      s.numberOfElements + s.queue.length := by
  unfold RandomSampling.commit at h
  dsimp only at h
  split at h
  · injection h with h'; subst h'; rfl
  · split at h
    · injection h with h'; subst h'; rfl
    · split at h
      · exact absurd h (by simp)
      · rename_i bid s₂ heb
        obtain ⟨hf1, hf2⟩ := findEmptyBuffer_frame O _ bid s₂ heb
        split at h
        · exact absurd h (by simp)
        · injection h with h'
          subst h'
          dsimp only
          split
          · dsimp only
            rw [hf1, hf2]
            dsimp only [List.length_nil]
            omega
          · rw [hf1, hf2]
            dsimp only [List.length_nil]
            omega

theorem add_inv (O : RSOracle) (s : RandomSampling) (v : Nat)
    (s' : RandomSampling) (h : RandomSampling.add O s v = .ok s') :
    s'.numberOfElements + s'.queue.length =
      s.numberOfElements + s.queue.length + 1 := by
  unfold RandomSampling.add at h
  have := commit_inv O _ false s' h
  simpa using this

theorem runRsAdds_inv (O : RSOracle) :
    ∀ (vs : List Nat) (s s' : RandomSampling),
      runRsAdds O s vs = .ok s' →
      s'.numberOfElements + s'.queue.length =
        s.numberOfElements + s.queue.length + vs.length := by
  intro vs
  induction vs with
  | nil =>
      intro s s' h
      injection h with h'
      subst h'
      rfl
  | cons v t ih =>
      intro s s' h
      unfold runRsAdds at h
      split at h
      · exact absurd h (by simp)
      · rename_i s₁ hadd
        have h1 := add_inv O s v s₁ hadd
        have h2 := ih s₁ s' h
        rw [List.length_cons]
        omega

/-- C9 amended: `count()` returns the number of elements that have been
flushed out of the staging queue into the buffers, not the number of `add`
calls: after any sequence of `add` calls (under any outcome of the random
draws), `count() + len(queue)` equals the number of `add` calls, and
`count()` alone undercounts while elements remain staged. -/
theorem c9_count_plus_queue (O : RSOracle) (nb cap hgt : Nat) (vs : List Nat)
    (s : RandomSampling)
    (hrun : runRsAdds O (RandomSampling.init nb cap hgt) vs = .ok s) :
    s.rsCount + s.queue.length = vs.length := by
  have := runRsAdds_inv O vs (RandomSampling.init nb cap hgt) s hrun
  show s.numberOfElements + s.queue.length = vs.length
  have h0 : (RandomSampling.init nb cap hgt).numberOfElements = 0 := rfl
  have h1 : (RandomSampling.init nb cap hgt).queue.length = 0 := rfl
  omega

/-- The state of a fresh `RandomSampling(5, 5, 3)` after a single
`add(42)`: the element sits in the staging queue, nothing was committed. -/
def c9State : RandomSampling :=
  { RandomSampling.init 5 5 3 with queue := [42] }

/-- C9 counterexample: after one `add` call on a fresh
`RandomSampling(5, 5, 3)`, `count()` returns 0, not 1 — the queued,
uncommitted element is NOT included in the elements-seen counter. -/
theorem c9_count_counterexample :
    runRsAdds detOracle (RandomSampling.init 5 5 3) [42] = .ok c9State ∧
    c9State.rsCount = 0 ∧ (0 : Nat) ≠ 1 := by decide

/-- Witness for C9 on the same concrete run: `count() + len(queue) = 1`
after one `add`. -/
theorem c9_count_plus_queue_witness :
    c9State.rsCount + c9State.queue.length = 1 :=
  c9_count_plus_queue detOracle 5 5 3 [42] c9State (by decide)

/-! ## Merge commutativity (C5)

The two merge orders produce dicts that are equal as maps but differently
ordered lists; `compress` then iterates them in dict order.  The proof
shows that the whole compression pipeline respects map equality: each
`_merge_if_needed` step reads and writes only through lookups, and two
steps on distinct buckets of the same level commute. -/

/-- The state relation preserved by compression: equal scalar fields and
equal dicts as maps. -/
def QdRel (d₁ d₂ : QuantileDigest) : Prop :=
  d₁.compression_factor = d₂.compression_factor ∧
  d₁.treeHeight = d₂.treeHeight ∧
  d₁.numberOfBuckets = d₂.numberOfBuckets ∧
  d₁.exactBoundaryValue = d₂.exactBoundaryValue ∧
  MapEquiv d₁.qdigest d₂.qdigest

theorem qdRel_refl (d : QuantileDigest) : QdRel d d :=
  ⟨rfl, rfl, rfl, rfl, mapEquiv_refl _⟩

theorem qdRel_trans {d₁ d₂ d₃ : QuantileDigest} (h₁ : QdRel d₁ d₂)
    (h₂ : QdRel d₂ d₃) : QdRel d₁ d₃ :=
  ⟨h₁.1.trans h₂.1, h₁.2.1.trans h₂.2.1, h₁.2.2.1.trans h₂.2.2.1,
   h₁.2.2.2.1.trans h₂.2.2.2.1, mapEquiv_trans h₁.2.2.2.2 h₂.2.2.2.2⟩

theorem mapEquiv_dset {m₁ m₂ : List (Nat × Nat)} (k v : Nat)
    (h : MapEquiv m₁ m₂) : MapEquiv (dset k v m₁) (dset k v m₂) := by
  intro x
  by_cases hx : x = k
  · subst hx; rw [dlookup_dset_self, dlookup_dset_self]
  · rw [dlookup_dset_ne _ _ _ _ (fun hc => hx hc.symm),
      dlookup_dset_ne _ _ _ _ (fun hc => hx hc.symm)]
    exact h x

theorem mapEquiv_derase {m₁ m₂ : List (Nat × Nat)} (k : Nat)
    (h : MapEquiv m₁ m₂) (hn₁ : NodupKeys m₁) (hn₂ : NodupKeys m₂) :
    MapEquiv (derase k m₁) (derase k m₂) := by
  intro x
  by_cases hx : x = k
  · subst hx
    rw [dlookup_derase_self _ _ hn₁, dlookup_derase_self _ _ hn₂]
  · rw [dlookup_derase_ne _ _ _ (fun hc => hx hc.symm),
      dlookup_derase_ne _ _ _ (fun hc => hx hc.symm)]
    exact h x

theorem mapEquiv_derase_comm (m : List (Nat × Nat)) (x y : Nat)
    (hn : NodupKeys m) :
    MapEquiv (derase x (derase y m)) (derase y (derase x m)) := by
  intro k
  by_cases hkx : k = x
  · subst hkx
    rw [dlookup_derase_self _ _ (nodupKeys_derase _ _ hn)]
    by_cases hky : k = y
    · subst hky
      rw [dlookup_derase_self _ _ (nodupKeys_derase _ _ hn)]
    · rw [dlookup_derase_ne _ _ _ (fun hc => hky hc.symm),
        dlookup_derase_self _ _ hn]
  · rw [dlookup_derase_ne _ _ _ (fun hc => hkx hc.symm)]
    by_cases hky : k = y
    · subst hky
      rw [dlookup_derase_self _ _ hn,
        dlookup_derase_self _ _ (nodupKeys_derase _ _ hn)]
    · rw [dlookup_derase_ne _ _ _ (fun hc => hky hc.symm),
        dlookup_derase_ne _ _ _ (fun hc => hky hc.symm),
        dlookup_derase_ne _ _ _ (fun hc => hkx hc.symm)]

theorem deleteBucket_nb (d : QuantileDigest) (b : Nat) :
    (d.deleteBucketIfExists b).1.numberOfBuckets =
      if dlookup b d.qdigest = none then d.numberOfBuckets
      else d.numberOfBuckets - 1 := by
  unfold QuantileDigest.deleteBucketIfExists
  cases h : dlookup b d.qdigest with
  | none => rw [if_pos rfl]
  | some c => rw [if_neg (by simp)]

theorem deleteBucket_scalar (d : QuantileDigest) (b : Nat) :
    (d.deleteBucketIfExists b).1.compression_factor = d.compression_factor ∧
    (d.deleteBucketIfExists b).1.treeHeight = d.treeHeight ∧
    (d.deleteBucketIfExists b).1.exactBoundaryValue = d.exactBoundaryValue := by
  unfold QuantileDigest.deleteBucketIfExists
  cases dlookup b d.qdigest <;> exact ⟨rfl, rfl, rfl⟩

/-- `_merge_if_needed` on an absent bucket: no-op. -/
theorem mifn_absent (d : QuantileDigest) (b : Nat)
    (h : dlookup b d.qdigest = none) : d.mergeIfNeeded b = d := by
  unfold QuantileDigest.mergeIfNeeded
  rw [h]

/-- `_merge_if_needed` on the root with a positive count: no-op. -/
theorem mifn_root_kept (d : QuantileDigest) (c : Nat)
    (h : dlookup 1 d.qdigest = some c) (hc : ¬ c ≤ 0) :
    d.mergeIfNeeded 1 = d := by
  unfold QuantileDigest.mergeIfNeeded
  rw [h]
  dsimp only
  rw [if_pos rfl, if_neg hc]

/-- `_merge_if_needed` on a zero-count root: delete the root. -/
theorem mifn_root_del (d : QuantileDigest) (c : Nat)
    (h : dlookup 1 d.qdigest = some c) (hc : c ≤ 0) :
    d.mergeIfNeeded 1 =
      { d with qdigest := derase 1 d.qdigest,
               numberOfBuckets := d.numberOfBuckets - 1 } := by
  unfold QuantileDigest.mergeIfNeeded
  rw [h]
  dsimp only
  rw [if_pos rfl, if_pos hc]
  unfold QuantileDigest.deleteBucketIfExists
  rw [h]

/-- `_merge_if_needed` on a non-root bucket whose family is worth keeping:
no-op. -/
theorem mifn_kept (d : QuantileDigest) (b c : Nat) (hb : b ≠ 1)
    (h : dlookup b d.qdigest = some c)
    (hw : d.isWorthToStore
      (c + (dlookup (QuantileDigest.bucketParentId b) d.qdigest).getD 0 +
        (dlookup (QuantileDigest.bucketSiblingId b) d.qdigest).getD 0) = true) :
    d.mergeIfNeeded b = d := by
  unfold QuantileDigest.mergeIfNeeded
  rw [h]
  dsimp only
  rw [if_neg hb, if_pos hw]

/-- The full effect of `_delete_bucket_if_exists` on the digest state. -/
theorem deleteBucket_eq (d : QuantileDigest) (b : Nat) :
    (d.deleteBucketIfExists b).1 =
      { d with qdigest := derase b d.qdigest,
               numberOfBuckets :=
                 if dlookup b d.qdigest = none then d.numberOfBuckets
                 else d.numberOfBuckets - 1 } := by
  unfold QuantileDigest.deleteBucketIfExists
  cases h : dlookup b d.qdigest with
  | none => rw [if_pos rfl, derase_of_none _ _ h]
  | some c => rw [if_neg (by simp)]

/-- `_merge_if_needed` on a non-root bucket whose family is not worth
keeping, field by field: the family count moves to the parent, the bucket
and its sibling are deleted, and the bucket counter follows the presence
checks. -/
theorem mifn_merged_fields (d : QuantileDigest) (b c : Nat) (hb2 : 2 ≤ b)
    (h : dlookup b d.qdigest = some c)
    (hw : d.isWorthToStore
      (c + (dlookup (QuantileDigest.bucketParentId b) d.qdigest).getD 0 +
        (dlookup (QuantileDigest.bucketSiblingId b) d.qdigest).getD 0) = false) :
    (d.mergeIfNeeded b).qdigest =
      derase (QuantileDigest.bucketSiblingId b)
        (derase b (dset (QuantileDigest.bucketParentId b)
          (c + (dlookup (QuantileDigest.bucketParentId b) d.qdigest).getD 0 +
            (dlookup (QuantileDigest.bucketSiblingId b) d.qdigest).getD 0)
          d.qdigest)) ∧
    (d.mergeIfNeeded b).numberOfBuckets =
      (if dlookup (QuantileDigest.bucketSiblingId b)
          (derase b (dset (QuantileDigest.bucketParentId b)
            (c + (dlookup (QuantileDigest.bucketParentId b) d.qdigest).getD 0 +
              (dlookup (QuantileDigest.bucketSiblingId b) d.qdigest).getD 0)
            d.qdigest)) = none then
        (if dlookup (QuantileDigest.bucketParentId b) d.qdigest = none then
          d.numberOfBuckets + 1 else d.numberOfBuckets) - 1
      else
        ((if dlookup (QuantileDigest.bucketParentId b) d.qdigest = none then
          d.numberOfBuckets + 1 else d.numberOfBuckets) - 1) - 1) ∧
    (d.mergeIfNeeded b).compression_factor = d.compression_factor ∧
    (d.mergeIfNeeded b).treeHeight = d.treeHeight ∧
    (d.mergeIfNeeded b).exactBoundaryValue = d.exactBoundaryValue := by
  have hpb : QuantileDigest.bucketParentId b ≠ b := by
    show b / 2 ≠ b; omega
  unfold QuantileDigest.mergeIfNeeded
  rw [h]
  dsimp only
  rw [if_neg (by omega : ¬ b = 1), if_neg (by rw [hw]; simp)]
  set p := QuantileDigest.bucketParentId b
  set sib := QuantileDigest.bucketSiblingId b
  set fam := c + (dlookup p d.qdigest).getD 0 + (dlookup sib d.qdigest).getD 0
    with hfam
  set d₁ : QuantileDigest :=
    { d with
      numberOfBuckets :=
        if dlookup p d.qdigest = none then d.numberOfBuckets + 1
        else d.numberOfBuckets,
      qdigest := dset p fam d.qdigest } with hd₁
  have hlb₁ : dlookup b d₁.qdigest = some c := by
    show dlookup b (dset p fam d.qdigest) = some c
    rw [dlookup_dset_ne _ _ _ _ hpb, h]
  refine ⟨?_, ?_, ?_, ?_, ?_⟩
  · rw [deleteBucket_qdigest, deleteBucket_qdigest]
  · rw [deleteBucket_nb, deleteBucket_qdigest, deleteBucket_nb, hlb₁,
      if_neg (show ¬ (some c = none) from by simp)]
  · obtain ⟨h1, _, _⟩ := deleteBucket_scalar ((d₁.deleteBucketIfExists b).1) sib
    obtain ⟨h2, _, _⟩ := deleteBucket_scalar d₁ b
    exact h1.trans h2
  · obtain ⟨_, h1, _⟩ := deleteBucket_scalar ((d₁.deleteBucketIfExists b).1) sib
    obtain ⟨_, h2, _⟩ := deleteBucket_scalar d₁ b
    exact h1.trans h2
  · obtain ⟨_, _, h1⟩ := deleteBucket_scalar ((d₁.deleteBucketIfExists b).1) sib
    obtain ⟨_, _, h2⟩ := deleteBucket_scalar d₁ b
    exact h1.trans h2

theorem mifn_nodup (d : QuantileDigest) (b : Nat) (hn : NodupKeys d.qdigest) :
    NodupKeys (d.mergeIfNeeded b).qdigest := by
  unfold QuantileDigest.mergeIfNeeded
  cases hl : dlookup b d.qdigest with
  | none => exact hn
  | some c =>
      dsimp only
      by_cases hb1 : b = 1
      · rw [if_pos hb1]
        by_cases hc0 : c ≤ 0
        · rw [if_pos hc0, deleteBucket_qdigest]
          exact nodupKeys_derase _ _ hn
        · rw [if_neg hc0]; exact hn
      · rw [if_neg hb1]
        by_cases hw : d.isWorthToStore
            (c + (dlookup (QuantileDigest.bucketParentId b) d.qdigest).getD 0 +
              (dlookup (QuantileDigest.bucketSiblingId b) d.qdigest).getD 0)
        · rw [if_pos hw]; exact hn
        · rw [if_neg hw, deleteBucket_qdigest, deleteBucket_qdigest]
          exact nodupKeys_derase _ _ (nodupKeys_derase _ _ (nodupKeys_dset _ _ _ hn))

theorem isWorth_congr (d₁ d₂ : QuantileDigest)
    (hbv : d₁.exactBoundaryValue = d₂.exactBoundaryValue) (f : Nat) :
    d₂.isWorthToStore f = d₁.isWorthToStore f := by
  unfold QuantileDigest.isWorthToStore
  rw [hbv]

theorem mifn_rel (d₁ d₂ : QuantileDigest) (b : Nat) (hb : 1 ≤ b)
    (hR : QdRel d₁ d₂) (hn₁ : NodupKeys d₁.qdigest) (hn₂ : NodupKeys d₂.qdigest) :
    QdRel (d₁.mergeIfNeeded b) (d₂.mergeIfNeeded b) := by
  obtain ⟨hk, ht, hnb, hbv, hmap⟩ := hR
  cases hl₁ : dlookup b d₁.qdigest with
  | none =>
      have hl₂ : dlookup b d₂.qdigest = none := by rw [← hmap b]; exact hl₁
      rw [mifn_absent d₁ b hl₁, mifn_absent d₂ b hl₂]
      exact ⟨hk, ht, hnb, hbv, hmap⟩
  | some c =>
      have hl₂ : dlookup b d₂.qdigest = some c := by rw [← hmap b]; exact hl₁
      by_cases hb1 : b = 1
      · subst hb1
        by_cases hc0 : c ≤ 0
        · rw [mifn_root_del d₁ c hl₁ hc0, mifn_root_del d₂ c hl₂ hc0]
          exact ⟨hk, ht, by show d₁.numberOfBuckets - 1 = d₂.numberOfBuckets - 1; rw [hnb],
            hbv, mapEquiv_derase 1 hmap hn₁ hn₂⟩
        · rw [mifn_root_kept d₁ c hl₁ hc0, mifn_root_kept d₂ c hl₂ hc0]
          exact ⟨hk, ht, hnb, hbv, hmap⟩
      · have hb2 : 2 ≤ b := by omega
        have e₂ : c + (dlookup (QuantileDigest.bucketParentId b) d₂.qdigest).getD 0 +
            (dlookup (QuantileDigest.bucketSiblingId b) d₂.qdigest).getD 0 =
            c + (dlookup (QuantileDigest.bucketParentId b) d₁.qdigest).getD 0 +
              (dlookup (QuantileDigest.bucketSiblingId b) d₁.qdigest).getD 0 := by
          rw [← hmap (QuantileDigest.bucketParentId b),
            ← hmap (QuantileDigest.bucketSiblingId b)]
        cases hw : d₁.isWorthToStore
            (c + (dlookup (QuantileDigest.bucketParentId b) d₁.qdigest).getD 0 +
              (dlookup (QuantileDigest.bucketSiblingId b) d₁.qdigest).getD 0) with
        | true =>
            have hw₂ : d₂.isWorthToStore
                (c + (dlookup (QuantileDigest.bucketParentId b) d₂.qdigest).getD 0 +
                  (dlookup (QuantileDigest.bucketSiblingId b) d₂.qdigest).getD 0) = true := by
              rw [e₂, isWorth_congr d₁ d₂ hbv, hw]
            rw [mifn_kept d₁ b c hb1 hl₁ hw, mifn_kept d₂ b c hb1 hl₂ hw₂]
            exact ⟨hk, ht, hnb, hbv, hmap⟩
        | false =>
            have hw₂ : d₂.isWorthToStore
                (c + (dlookup (QuantileDigest.bucketParentId b) d₂.qdigest).getD 0 +
                  (dlookup (QuantileDigest.bucketSiblingId b) d₂.qdigest).getD 0) = false := by
              rw [e₂, isWorth_congr d₁ d₂ hbv, hw]
            obtain ⟨hq₁, hn₁', hk₁, ht₁, hbv₁⟩ := mifn_merged_fields d₁ b c hb2 hl₁ hw
            obtain ⟨hq₂, hn₂', hk₂, ht₂, hbv₂⟩ := mifn_merged_fields d₂ b c hb2 hl₂ hw₂
            have hmap' : MapEquiv (d₁.mergeIfNeeded b).qdigest (d₂.mergeIfNeeded b).qdigest := by
              rw [hq₁, hq₂, e₂]
              exact mapEquiv_derase _
                (mapEquiv_derase _ (mapEquiv_dset _ _ hmap)
                  (nodupKeys_dset _ _ _ hn₁) (nodupKeys_dset _ _ _ hn₂))
                (nodupKeys_derase _ _ (nodupKeys_dset _ _ _ hn₁))
                (nodupKeys_derase _ _ (nodupKeys_dset _ _ _ hn₂))
            refine ⟨?_, ?_, ?_, ?_, hmap'⟩
            · rw [hk₁, hk₂]; exact hk
            · rw [ht₁, ht₂]; exact ht
            · rw [hn₁', hn₂', e₂]
              have hpc : dlookup (QuantileDigest.bucketParentId b) d₁.qdigest =
                  dlookup (QuantileDigest.bucketParentId b) d₂.qdigest :=
                hmap (QuantileDigest.bucketParentId b)
              have hsc : dlookup (QuantileDigest.bucketSiblingId b)
                  (derase b (dset (QuantileDigest.bucketParentId b)
                    (c + (dlookup (QuantileDigest.bucketParentId b) d₁.qdigest).getD 0 +
                      (dlookup (QuantileDigest.bucketSiblingId b) d₁.qdigest).getD 0)
                    d₁.qdigest)) =
                  dlookup (QuantileDigest.bucketSiblingId b)
                    (derase b (dset (QuantileDigest.bucketParentId b)
                      (c + (dlookup (QuantileDigest.bucketParentId b) d₁.qdigest).getD 0 +
                        (dlookup (QuantileDigest.bucketSiblingId b) d₁.qdigest).getD 0)
                      d₂.qdigest)) :=
                mapEquiv_derase _ (mapEquiv_dset _ _ hmap)
                  (nodupKeys_dset _ _ _ hn₁) (nodupKeys_dset _ _ _ hn₂) _
              rw [hsc, hpc, hnb]
            · rw [hbv₁, hbv₂]; exact hbv

theorem mifn_scalar (d : QuantileDigest) (b : Nat) :
    (d.mergeIfNeeded b).compression_factor = d.compression_factor ∧
    (d.mergeIfNeeded b).treeHeight = d.treeHeight ∧
    (d.mergeIfNeeded b).exactBoundaryValue = d.exactBoundaryValue := by
  unfold QuantileDigest.mergeIfNeeded
  cases hl : dlookup b d.qdigest with
  | none => exact ⟨rfl, rfl, rfl⟩
  | some c =>
      dsimp only
      by_cases hb1 : b = 1
      · rw [if_pos hb1]
        by_cases hc0 : c ≤ 0
        · rw [if_pos hc0]
          exact deleteBucket_scalar _ _
        · rw [if_neg hc0]; exact ⟨rfl, rfl, rfl⟩
      · rw [if_neg hb1]
        by_cases hw : d.isWorthToStore
            (c + (dlookup (QuantileDigest.bucketParentId b) d.qdigest).getD 0 +
              (dlookup (QuantileDigest.bucketSiblingId b) d.qdigest).getD 0)
        · rw [if_pos hw]; exact ⟨rfl, rfl, rfl⟩
        · rw [if_neg hw]
          obtain ⟨x1, x2, x3⟩ := deleteBucket_scalar
            (((({ d with
                numberOfBuckets :=
                  if dlookup (QuantileDigest.bucketParentId b) d.qdigest = none then
                    d.numberOfBuckets + 1
                  else d.numberOfBuckets,
                qdigest := dset (QuantileDigest.bucketParentId b)
                  (c + (dlookup (QuantileDigest.bucketParentId b) d.qdigest).getD 0 +
                    (dlookup (QuantileDigest.bucketSiblingId b) d.qdigest).getD 0)
                  d.qdigest } : QuantileDigest).deleteBucketIfExists b).1))
            (QuantileDigest.bucketSiblingId b)
          obtain ⟨y1, y2, y3⟩ := deleteBucket_scalar
            ({ d with
                numberOfBuckets :=
                  if dlookup (QuantileDigest.bucketParentId b) d.qdigest = none then
                    d.numberOfBuckets + 1
                  else d.numberOfBuckets,
                qdigest := dset (QuantileDigest.bucketParentId b)
                  (c + (dlookup (QuantileDigest.bucketParentId b) d.qdigest).getD 0 +
                    (dlookup (QuantileDigest.bucketSiblingId b) d.qdigest).getD 0)
                  d.qdigest } : QuantileDigest) b
          exact ⟨x1.trans y1, x2.trans y2, x3.trans y3⟩

theorem mifn_lookup_other (d : QuantileDigest) (b x : Nat)
    (hx1 : x ≠ b) (hx2 : x ≠ QuantileDigest.bucketSiblingId b)
    (hx3 : x ≠ QuantileDigest.bucketParentId b) :
    dlookup x (d.mergeIfNeeded b).qdigest = dlookup x d.qdigest := by
  unfold QuantileDigest.mergeIfNeeded
  cases hl : dlookup b d.qdigest with
  | none => rfl
  | some c =>
      dsimp only
      by_cases hb1 : b = 1
      · rw [if_pos hb1]
        by_cases hc0 : c ≤ 0
        · rw [if_pos hc0, deleteBucket_qdigest]
          subst hb1
          exact dlookup_derase_ne _ _ _ (fun hc => hx1 hc.symm)
        · rw [if_neg hc0]
      · rw [if_neg hb1]
        by_cases hw : d.isWorthToStore
            (c + (dlookup (QuantileDigest.bucketParentId b) d.qdigest).getD 0 +
              (dlookup (QuantileDigest.bucketSiblingId b) d.qdigest).getD 0)
        · rw [if_pos hw]
        · rw [if_neg hw, deleteBucket_qdigest, deleteBucket_qdigest,
            dlookup_derase_ne _ _ _ (fun hc => hx2 hc.symm),
            dlookup_derase_ne _ _ _ (fun hc => hx1 hc.symm),
            dlookup_dset_ne _ _ _ _ (fun hc => hx3 hc.symm)]

theorem mapEquiv_family_comm (m : List (Nat × Nat))
    (a sa pa b sb pb fa fb : Nat) (hn : NodupKeys m)
    (h1 : a ≠ b) (h2 : a ≠ sb) (h3 : a ≠ pb)
    (h4 : sa ≠ b) (h5 : sa ≠ sb) (h6 : sa ≠ pb)
    (h7 : pa ≠ b) (h8 : pa ≠ sb) (h9 : pa ≠ pb)
    (hsa : sa ≠ a) (hpa : pa ≠ a) (hpsa : pa ≠ sa)
    (hsb : sb ≠ b) (hpb : pb ≠ b) (hpsb : pb ≠ sb) :
    MapEquiv
      (derase sb (derase b (dset pb fb (derase sa (derase a (dset pa fa m))))))
      (derase sa (derase a (dset pa fa (derase sb (derase b (dset pb fb m)))))) := by
  have hnA : NodupKeys (dset pa fa m) := nodupKeys_dset _ _ _ hn
  have hnA1 : NodupKeys (derase a (dset pa fa m)) := nodupKeys_derase _ _ hnA
  have hnA2 : NodupKeys (derase sa (derase a (dset pa fa m))) := nodupKeys_derase _ _ hnA1
  have hnB : NodupKeys (dset pb fb m) := nodupKeys_dset _ _ _ hn
  have hnB1 : NodupKeys (derase b (dset pb fb m)) := nodupKeys_derase _ _ hnB
  have hnB2 : NodupKeys (derase sb (derase b (dset pb fb m))) := nodupKeys_derase _ _ hnB1
  have hnBA : NodupKeys (dset pb fb (derase sa (derase a (dset pa fa m)))) :=
    nodupKeys_dset _ _ _ hnA2
  have hnBA1 : NodupKeys (derase b (dset pb fb (derase sa (derase a (dset pa fa m))))) :=
    nodupKeys_derase _ _ hnBA
  have hnAB : NodupKeys (dset pa fa (derase sb (derase b (dset pb fb m)))) :=
    nodupKeys_dset _ _ _ hnB2
  have hnAB1 : NodupKeys (derase a (dset pa fa (derase sb (derase b (dset pb fb m))))) :=
    nodupKeys_derase _ _ hnAB
  intro k
  by_cases hka : k = a
  · subst hka
    rw [dlookup_derase_ne _ _ _ (fun hc => h2 hc.symm),
      dlookup_derase_ne _ _ _ (fun hc => h1 hc.symm),
      dlookup_dset_ne _ _ _ _ (fun hc => h3 hc.symm),
      dlookup_derase_ne _ _ _ hsa,
      dlookup_derase_self _ _ hnA,
      dlookup_derase_ne _ _ _ hsa,
      dlookup_derase_self _ _ hnAB]
  · by_cases hksa : k = sa
    · subst hksa
      rw [dlookup_derase_ne _ _ _ (fun hc => h5 hc.symm),
        dlookup_derase_ne _ _ _ (fun hc => h4 hc.symm),
        dlookup_dset_ne _ _ _ _ (fun hc => h6 hc.symm),
        dlookup_derase_self _ _ hnA1,
        dlookup_derase_self _ _ hnAB1]
    · by_cases hkpa : k = pa
      · subst hkpa
        rw [dlookup_derase_ne _ _ _ (fun hc => h8 hc.symm),
          dlookup_derase_ne _ _ _ (fun hc => h7 hc.symm),
          dlookup_dset_ne _ _ _ _ (fun hc => h9 hc.symm),
          dlookup_derase_ne _ _ _ (fun hc => hpsa hc.symm),
          dlookup_derase_ne _ _ _ (fun hc => hpa hc.symm),
          dlookup_dset_self,
          dlookup_derase_ne _ _ _ (fun hc => hpsa hc.symm),
          dlookup_derase_ne _ _ _ (fun hc => hpa hc.symm),
          dlookup_dset_self]
      · by_cases hkb : k = b
        · subst hkb
          rw [dlookup_derase_ne _ _ _ hsb,
            dlookup_derase_self _ _ hnBA,
            dlookup_derase_ne _ _ _ h4,
            dlookup_derase_ne _ _ _ h1,
            dlookup_dset_ne _ _ _ _ h7,
            dlookup_derase_ne _ _ _ hsb,
            dlookup_derase_self _ _ hnB]
        · by_cases hksb : k = sb
          · subst hksb
            rw [dlookup_derase_self _ _ hnBA1,
              dlookup_derase_ne _ _ _ h5,
              dlookup_derase_ne _ _ _ h2,
              dlookup_dset_ne _ _ _ _ h8,
              dlookup_derase_self _ _ hnB1]
          · by_cases hkpb : k = pb
            · subst hkpb
              rw [dlookup_derase_ne _ _ _ (fun hc => hpsb hc.symm),
                dlookup_derase_ne _ _ _ (fun hc => hpb hc.symm),
                dlookup_dset_self,
                dlookup_derase_ne _ _ _ h6,
                dlookup_derase_ne _ _ _ h3,
                dlookup_dset_ne _ _ _ _ h9,
                dlookup_derase_ne _ _ _ (fun hc => hpsb hc.symm),
                dlookup_derase_ne _ _ _ (fun hc => hpb hc.symm),
                dlookup_dset_self]
            · rw [dlookup_derase_ne _ _ _ (fun hc => hksb hc.symm),
                dlookup_derase_ne _ _ _ (fun hc => hkb hc.symm),
                dlookup_dset_ne _ _ _ _ (fun hc => hkpb hc.symm),
                dlookup_derase_ne _ _ _ (fun hc => hksa hc.symm),
                dlookup_derase_ne _ _ _ (fun hc => hka hc.symm),
                dlookup_dset_ne _ _ _ _ (fun hc => hkpa hc.symm),
                dlookup_derase_ne _ _ _ (fun hc => hksa hc.symm),
                dlookup_derase_ne _ _ _ (fun hc => hka hc.symm),
                dlookup_dset_ne _ _ _ _ (fun hc => hkpa hc.symm),
                dlookup_derase_ne _ _ _ (fun hc => hksb hc.symm),
                dlookup_derase_ne _ _ _ (fun hc => hkb hc.symm),
                dlookup_dset_ne _ _ _ _ (fun hc => hkpb hc.symm)]

theorem mifn_comm_family (d : QuantileDigest) (a b : Nat) (h2a : 2 ≤ a)
    (h2b : 2 ≤ b) (hab : a ≠ b) (hfam : a / 2 = b / 2)
    (hn : NodupKeys d.qdigest) :
    QdRel ((d.mergeIfNeeded a).mergeIfNeeded b)
      ((d.mergeIfNeeded b).mergeIfNeeded a) := by
  have h1a : a ≠ 1 := by omega
  have h1b : b ≠ 1 := by omega
  have hsa : QuantileDigest.bucketSiblingId a = b := by
    rw [bucketSiblingId_eq]
    rcases Nat.mod_two_eq_zero_or_one a with e | e
    · rw [if_pos e]; omega
    · rw [if_neg (by omega)]; omega
  have hsb : QuantileDigest.bucketSiblingId b = a := by
    rw [bucketSiblingId_eq]
    rcases Nat.mod_two_eq_zero_or_one b with e | e
    · rw [if_pos e]; omega
    · rw [if_neg (by omega)]; omega
  have hpbpa : QuantileDigest.bucketParentId b = QuantileDigest.bucketParentId a := by
    show b / 2 = a / 2
    omega
  have hpa_lt : QuantileDigest.bucketParentId a ≠ a := by show a / 2 ≠ a; omega
  have hpa_ne_b : QuantileDigest.bucketParentId a ≠ b := by
    show a / 2 ≠ b; omega
  cases hla : dlookup a d.qdigest with
  | none =>
      rw [mifn_absent d a hla]
      cases hlb : dlookup b d.qdigest with
      | none =>
          rw [mifn_absent d b hlb, mifn_absent d a hla]
          exact qdRel_refl d
      | some cb =>
          cases hwb : d.isWorthToStore
              (cb + (dlookup (QuantileDigest.bucketParentId b) d.qdigest).getD 0 +
                (dlookup (QuantileDigest.bucketSiblingId b) d.qdigest).getD 0) with
          | true =>
              rw [mifn_kept d b cb h1b hlb hwb, mifn_absent d a hla]
              exact qdRel_refl d
          | false =>
              have hq₂ := (mifn_merged_fields d b cb h2b hlb hwb).1
              rw [hsb] at hq₂
              have hnone : dlookup a (d.mergeIfNeeded b).qdigest = none := by
                rw [hq₂]
                exact dlookup_derase_self _ _
                  (nodupKeys_derase _ _ (nodupKeys_dset _ _ _ hn))
              rw [mifn_absent _ a hnone]
              exact qdRel_refl _
  | some ca =>
      cases hwa : d.isWorthToStore
          (ca + (dlookup (QuantileDigest.bucketParentId a) d.qdigest).getD 0 +
            (dlookup (QuantileDigest.bucketSiblingId a) d.qdigest).getD 0) with
      | true =>
          rw [mifn_kept d a ca h1a hla hwa]
          cases hlb : dlookup b d.qdigest with
          | none =>
              rw [mifn_absent d b hlb, mifn_kept d a ca h1a hla hwa]
              exact qdRel_refl d
          | some cb =>
              cases hwb : d.isWorthToStore
                  (cb + (dlookup (QuantileDigest.bucketParentId b) d.qdigest).getD 0 +
                    (dlookup (QuantileDigest.bucketSiblingId b) d.qdigest).getD 0) with
              | true =>
                  rw [mifn_kept d b cb h1b hlb hwb, mifn_kept d a ca h1a hla hwa]
                  exact qdRel_refl d
              | false =>
                  exfalso
                  rw [hsa, hlb] at hwa
                  rw [hsb, hpbpa, hla] at hwb
                  rw [show cb +
                      (dlookup (QuantileDigest.bucketParentId a) d.qdigest).getD 0 +
                      (some ca).getD 0 = ca +
                      (dlookup (QuantileDigest.bucketParentId a) d.qdigest).getD 0 +
                      (some cb).getD 0 from by
                        simp only [Option.getD_some]; omega] at hwb
                  rw [hwa] at hwb
                  exact Bool.noConfusion hwb
      | false =>
          have hq₁ := (mifn_merged_fields d a ca h2a hla hwa).1
          rw [hsa] at hq₁
          cases hlb : dlookup b d.qdigest with
          | none =>
              have hnone : dlookup b (d.mergeIfNeeded a).qdigest = none := by
                rw [hq₁]
                exact dlookup_derase_self _ _
                  (nodupKeys_derase _ _ (nodupKeys_dset _ _ _ hn))
              rw [mifn_absent _ b hnone, mifn_absent d b hlb]
              exact qdRel_refl _
          | some cb =>
              cases hwb : d.isWorthToStore
                  (cb + (dlookup (QuantileDigest.bucketParentId b) d.qdigest).getD 0 +
                    (dlookup (QuantileDigest.bucketSiblingId b) d.qdigest).getD 0) with
              | true =>
                  exfalso
                  rw [hsa, hlb] at hwa
                  rw [hsb, hpbpa, hla] at hwb
                  rw [show cb +
                      (dlookup (QuantileDigest.bucketParentId a) d.qdigest).getD 0 +
                      (some ca).getD 0 = ca +
                      (dlookup (QuantileDigest.bucketParentId a) d.qdigest).getD 0 +
                      (some cb).getD 0 from by
                        simp only [Option.getD_some]; omega] at hwb
                  rw [hwa] at hwb
                  exact Bool.noConfusion hwb
              | false =>
                  obtain ⟨hq₁', hn₁', hk₁, ht₁, hbv₁⟩ :=
                    mifn_merged_fields d a ca h2a hla hwa
                  obtain ⟨hq₂', hn₂', hk₂, ht₂, hbv₂⟩ :=
                    mifn_merged_fields d b cb h2b hlb hwb
                  rw [hsa, hlb] at hq₁' hn₁'
                  rw [hsb, hpbpa, hla] at hq₂' hn₂'
                  rw [show cb +
                      (dlookup (QuantileDigest.bucketParentId a) d.qdigest).getD 0 +
                      (some ca).getD 0 = ca +
                      (dlookup (QuantileDigest.bucketParentId a) d.qdigest).getD 0 +
                      (some cb).getD 0 from by
                        simp only [Option.getD_some]; omega] at hq₂' hn₂'
                  have hnone₁ : dlookup b (d.mergeIfNeeded a).qdigest = none := by
                    rw [hq₁']
                    exact dlookup_derase_self _ _
                      (nodupKeys_derase _ _ (nodupKeys_dset _ _ _ hn))
                  have hnone₂ : dlookup a (d.mergeIfNeeded b).qdigest = none := by
                    rw [hq₂']
                    exact dlookup_derase_self _ _
                      (nodupKeys_derase _ _ (nodupKeys_dset _ _ _ hn))
                  rw [mifn_absent _ b hnone₁, mifn_absent _ a hnone₂]
                  obtain ⟨sk₁, st₁, sbv₁⟩ := mifn_scalar d a
                  obtain ⟨sk₂, st₂, sbv₂⟩ := mifn_scalar d b
                  refine ⟨sk₁.trans sk₂.symm, st₁.trans st₂.symm, ?_,
                    sbv₁.trans sbv₂.symm, ?_⟩
                  · rw [hn₁', hn₂']
                    have hlkb : dlookup b (derase a
                        (dset (QuantileDigest.bucketParentId a)
                          (ca + (dlookup (QuantileDigest.bucketParentId a)
                            d.qdigest).getD 0 + (some cb).getD 0)
                          d.qdigest)) = some cb := by
                      rw [dlookup_derase_ne _ _ _ hab,
                        dlookup_dset_ne _ _ _ _ hpa_ne_b, hlb]
                    have hlka : dlookup a (derase b
                        (dset (QuantileDigest.bucketParentId a)
                          (ca + (dlookup (QuantileDigest.bucketParentId a)
                            d.qdigest).getD 0 + (some cb).getD 0)
                          d.qdigest)) = some ca := by
                      rw [dlookup_derase_ne _ _ _ (fun hc => hab hc.symm),
                        dlookup_dset_ne _ _ _ _ hpa_lt, hla]
                    rw [hlkb, hlka]
                    rw [if_neg (show ¬(some cb = none) from by simp),
                      if_neg (show ¬(some ca = none) from by simp)]
                  · rw [hq₁', hq₂']
                    exact mapEquiv_derase_comm _ b a (nodupKeys_dset _ _ _ hn)

theorem family_distinct (x : Nat) (h2 : 2 ≤ x) :
    QuantileDigest.bucketSiblingId x ≠ x ∧
    QuantileDigest.bucketParentId x ≠ x ∧
    QuantileDigest.bucketParentId x ≠ QuantileDigest.bucketSiblingId x := by
  have h := bucketSiblingId_eq x
  have hp : QuantileDigest.bucketParentId x = x / 2 := rfl
  rcases Nat.mod_two_eq_zero_or_one x with e | e
  · rw [h, if_pos e, hp]
    exact ⟨by omega, by omega, by omega⟩
  · rw [h, if_neg (by omega), hp]
    exact ⟨by omega, by omega, by omega⟩

theorem mifn_comm_diff (d : QuantileDigest) (a b : Nat)
    (h2a : 2 ≤ a) (h2b : 2 ≤ b)
    (dab : a ≠ b)
    (dasb : a ≠ QuantileDigest.bucketSiblingId b)
    (dapb : a ≠ QuantileDigest.bucketParentId b)
    (dsab : QuantileDigest.bucketSiblingId a ≠ b)
    (dsasb : QuantileDigest.bucketSiblingId a ≠ QuantileDigest.bucketSiblingId b)
    (dsapb : QuantileDigest.bucketSiblingId a ≠ QuantileDigest.bucketParentId b)
    (dpab : QuantileDigest.bucketParentId a ≠ b)
    (dpasb : QuantileDigest.bucketParentId a ≠ QuantileDigest.bucketSiblingId b)
    (dpapb : QuantileDigest.bucketParentId a ≠ QuantileDigest.bucketParentId b)
    (hn : NodupKeys d.qdigest) :
    QdRel ((d.mergeIfNeeded a).mergeIfNeeded b)
      ((d.mergeIfNeeded b).mergeIfNeeded a) := by
  have h1a : a ≠ 1 := by omega
  have h1b : b ≠ 1 := by omega
  obtain ⟨hsaa, hpaa, hpsa⟩ := family_distinct a h2a
  obtain ⟨hsbb, hpbb, hpsb⟩ := family_distinct b h2b
  have tb : dlookup b (d.mergeIfNeeded a).qdigest = dlookup b d.qdigest :=
    mifn_lookup_other d a b (Ne.symm dab) (Ne.symm dsab) (Ne.symm dpab)
  have tpb : dlookup (QuantileDigest.bucketParentId b) (d.mergeIfNeeded a).qdigest
      = dlookup (QuantileDigest.bucketParentId b) d.qdigest :=
    mifn_lookup_other d a _ (Ne.symm dapb) (Ne.symm dsapb) (Ne.symm dpapb)
  have tsb : dlookup (QuantileDigest.bucketSiblingId b) (d.mergeIfNeeded a).qdigest
      = dlookup (QuantileDigest.bucketSiblingId b) d.qdigest :=
    mifn_lookup_other d a _ (Ne.symm dasb) (Ne.symm dsasb) (Ne.symm dpasb)
  have ta : dlookup a (d.mergeIfNeeded b).qdigest = dlookup a d.qdigest :=
    mifn_lookup_other d b a dab dasb dapb
  have tpa : dlookup (QuantileDigest.bucketParentId a) (d.mergeIfNeeded b).qdigest
      = dlookup (QuantileDigest.bucketParentId a) d.qdigest :=
    mifn_lookup_other d b _ dpab dpasb dpapb
  have tsa : dlookup (QuantileDigest.bucketSiblingId a) (d.mergeIfNeeded b).qdigest
      = dlookup (QuantileDigest.bucketSiblingId a) d.qdigest :=
    mifn_lookup_other d b _ dsab dsasb dsapb
  cases hla : dlookup a d.qdigest with
  | none =>
      rw [mifn_absent d a hla, mifn_absent _ a (ta.trans hla)]
      exact qdRel_refl _
  | some ca =>
      cases hwa : d.isWorthToStore
          (ca + (dlookup (QuantileDigest.bucketParentId a) d.qdigest).getD 0 +
            (dlookup (QuantileDigest.bucketSiblingId a) d.qdigest).getD 0) with
      | true =>
          rw [mifn_kept d a ca h1a hla hwa]
          have hla' : dlookup a (d.mergeIfNeeded b).qdigest = some ca := ta.trans hla
          have hwa' : (d.mergeIfNeeded b).isWorthToStore
              (ca + (dlookup (QuantileDigest.bucketParentId a)
                (d.mergeIfNeeded b).qdigest).getD 0 +
               (dlookup (QuantileDigest.bucketSiblingId a)
                (d.mergeIfNeeded b).qdigest).getD 0) = true := by
            rw [tpa, tsa, isWorth_congr d _ ((mifn_scalar d b).2.2).symm]
            exact hwa
          rw [mifn_kept _ a ca h1a hla' hwa']
          exact qdRel_refl _
      | false =>
          obtain ⟨hqa, hna, hka, hta, hbva⟩ := mifn_merged_fields d a ca h2a hla hwa
          cases hlb : dlookup b d.qdigest with
          | none =>
              rw [mifn_absent d b hlb, mifn_absent _ b (tb.trans hlb)]
              exact qdRel_refl _
          | some cb =>
              cases hwb : d.isWorthToStore
                  (cb + (dlookup (QuantileDigest.bucketParentId b) d.qdigest).getD 0 +
                    (dlookup (QuantileDigest.bucketSiblingId b) d.qdigest).getD 0) with
              | true =>
                  rw [mifn_kept d b cb h1b hlb hwb]
                  have hlb' : dlookup b (d.mergeIfNeeded a).qdigest = some cb :=
                    tb.trans hlb
                  have hwb' : (d.mergeIfNeeded a).isWorthToStore
                      (cb + (dlookup (QuantileDigest.bucketParentId b)
                        (d.mergeIfNeeded a).qdigest).getD 0 +
                       (dlookup (QuantileDigest.bucketSiblingId b)
                        (d.mergeIfNeeded a).qdigest).getD 0) = true := by
                    rw [tpb, tsb, isWorth_congr d _ ((mifn_scalar d a).2.2).symm]
                    exact hwb
                  rw [mifn_kept _ b cb h1b hlb' hwb']
                  exact qdRel_refl _
              | false =>
                  obtain ⟨hqb, hnb', hkb, htb', hbvb⟩ :=
                    mifn_merged_fields d b cb h2b hlb hwb
                  have hlb' : dlookup b (d.mergeIfNeeded a).qdigest = some cb :=
                    tb.trans hlb
                  have hla' : dlookup a (d.mergeIfNeeded b).qdigest = some ca :=
                    ta.trans hla
                  have hwb' : (d.mergeIfNeeded a).isWorthToStore
                      (cb + (dlookup (QuantileDigest.bucketParentId b)
                        (d.mergeIfNeeded a).qdigest).getD 0 +
                       (dlookup (QuantileDigest.bucketSiblingId b)
                        (d.mergeIfNeeded a).qdigest).getD 0) = false := by
                    rw [tpb, tsb, isWorth_congr d _ ((mifn_scalar d a).2.2).symm]
                    exact hwb
                  have hwa' : (d.mergeIfNeeded b).isWorthToStore
                      (ca + (dlookup (QuantileDigest.bucketParentId a)
                        (d.mergeIfNeeded b).qdigest).getD 0 +
                       (dlookup (QuantileDigest.bucketSiblingId a)
                        (d.mergeIfNeeded b).qdigest).getD 0) = false := by
                    rw [tpa, tsa, isWorth_congr d _ ((mifn_scalar d b).2.2).symm]
                    exact hwa
                  obtain ⟨hqab, hnab, hkab, htab, hbvab⟩ :=
                    mifn_merged_fields (d.mergeIfNeeded a) b cb h2b hlb' hwb'
                  obtain ⟨hqba, hnba, hkba, htba, hbvba⟩ :=
                    mifn_merged_fields (d.mergeIfNeeded b) a ca h2a hla' hwa'
                  rw [dlookup_derase_ne _ _ _ (Ne.symm hsaa),
                    dlookup_dset_ne _ _ _ _ hpsa] at hna
                  rw [dlookup_derase_ne _ _ _ (Ne.symm hsbb),
                    dlookup_dset_ne _ _ _ _ hpsb] at hnb'
                  rw [tpb, tsb, hqa] at hqab
                  rw [tpa, tsa, hqb] at hqba
                  rw [dlookup_derase_ne _ _ _ (Ne.symm hsbb),
                    dlookup_dset_ne _ _ _ _ hpsb, tpb, tsb, hna] at hnab
                  rw [dlookup_derase_ne _ _ _ (Ne.symm hsaa),
                    dlookup_dset_ne _ _ _ _ hpsa, tpa, tsa, hnb'] at hnba
                  refine ⟨?_, ?_, ?_, ?_, ?_⟩
                  · exact (hkab.trans hka).trans ((hkba.trans hkb).symm)
                  · exact (htab.trans hta).trans ((htba.trans htb').symm)
                  · rw [hnab, hnba]
                    by_cases hpa0 : dlookup (QuantileDigest.bucketParentId a)
                        d.qdigest = none <;>
                      by_cases hsa0 : dlookup (QuantileDigest.bucketSiblingId a)
                          d.qdigest = none <;>
                        by_cases hpb0 : dlookup (QuantileDigest.bucketParentId b)
                            d.qdigest = none <;>
                          by_cases hsb0 : dlookup (QuantileDigest.bucketSiblingId b)
                              d.qdigest = none <;>
                            simp only [hpa0, hsa0, hpb0, hsb0, eq_self_iff_true,
                              if_true, if_false] <;> omega
                  · exact (hbvab.trans hbva).trans ((hbvba.trans hbvb).symm)
                  · rw [hqab, hqba]
                    exact mapEquiv_family_comm d.qdigest a
                      (QuantileDigest.bucketSiblingId a)
                      (QuantileDigest.bucketParentId a) b
                      (QuantileDigest.bucketSiblingId b)
                      (QuantileDigest.bucketParentId b) _ _ hn
                      dab dasb dapb dsab dsasb dsapb dpab dpasb dpapb
                      hsaa hpaa hpsa hsbb hpbb hpsb

theorem mifn_comm (d : QuantileDigest) (P a b : Nat)
    (hP2 : 2 ≤ P) (hPe : P % 2 = 0)
    (haL : P ≤ a) (haR : a ≤ 2 * P - 1)
    (hbL : P ≤ b) (hbR : b ≤ 2 * P - 1)
    (hab : a ≠ b) (hn : NodupKeys d.qdigest) :
    QdRel ((d.mergeIfNeeded a).mergeIfNeeded b)
      ((d.mergeIfNeeded b).mergeIfNeeded a) := by
  have h2a : 2 ≤ a := le_trans hP2 haL
  have h2b : 2 ≤ b := le_trans hP2 hbL
  by_cases hfam : a / 2 = b / 2
  · exact mifn_comm_family d a b h2a h2b hab hfam hn
  · have hpa : QuantileDigest.bucketParentId a = a / 2 := rfl
    have hpb : QuantileDigest.bucketParentId b = b / 2 := rfl
    have hsa_fact : QuantileDigest.bucketSiblingId a / 2 = a / 2 ∧
        P ≤ QuantileDigest.bucketSiblingId a ∧
        QuantileDigest.bucketSiblingId a ≤ 2 * P - 1 := by
      have hsa := bucketSiblingId_eq a
      rcases Nat.mod_two_eq_zero_or_one a with e | e
      · rw [hsa, if_pos e]; omega
      · rw [hsa, if_neg (by omega)]; omega
    have hsb_fact : QuantileDigest.bucketSiblingId b / 2 = b / 2 ∧
        P ≤ QuantileDigest.bucketSiblingId b ∧
        QuantileDigest.bucketSiblingId b ≤ 2 * P - 1 := by
      have hsb := bucketSiblingId_eq b
      rcases Nat.mod_two_eq_zero_or_one b with e | e
      · rw [hsb, if_pos e]; omega
      · rw [hsb, if_neg (by omega)]; omega
    obtain ⟨hsa1, hsa2, hsa3⟩ := hsa_fact
    obtain ⟨hsb1, hsb2, hsb3⟩ := hsb_fact
    refine mifn_comm_diff d a b h2a h2b hab ?_ ?_ ?_ ?_ ?_ ?_ ?_ ?_ hn
    · omega
    · rw [hpb]; omega
    · omega
    · omega
    · rw [hpb]; omega
    · rw [hpa]; omega
    · rw [hpa]; omega
    · rw [hpa, hpb]; omega

theorem foldl_mifn_nodup :
    ∀ (l : List Nat) (d : QuantileDigest), NodupKeys d.qdigest →
      NodupKeys ((l.foldl QuantileDigest.mergeIfNeeded d).qdigest)
  | [], _, hn => hn
  | x :: t, d, hn => foldl_mifn_nodup t _ (mifn_nodup d x hn)

theorem foldRelSame :
    ∀ (l : List Nat) (d₁ d₂ : QuantileDigest), QdRel d₁ d₂ →
      NodupKeys d₁.qdigest → NodupKeys d₂.qdigest → (∀ x ∈ l, 1 ≤ x) →
      QdRel (l.foldl QuantileDigest.mergeIfNeeded d₁)
        (l.foldl QuantileDigest.mergeIfNeeded d₂)
  | [], _, _, hR, _, _, _ => hR
  | x :: t, d₁, d₂, hR, hn₁, hn₂, hl =>
      foldRelSame t _ _
        (mifn_rel d₁ d₂ x (hl x (List.mem_cons_self x t)) hR hn₁ hn₂)
        (mifn_nodup d₁ x hn₁) (mifn_nodup d₂ x hn₂)
        (fun y hy => hl y (List.mem_cons_of_mem x hy))

theorem foldRelPerm (P : Nat) (hPok : P = 1 ∨ (2 ≤ P ∧ P % 2 = 0))
    {l₁ l₂ : List Nat} (hp : l₁.Perm l₂) :
    ∀ (d : QuantileDigest), NodupKeys d.qdigest →
      (∀ x ∈ l₁, P ≤ x ∧ x ≤ 2 * P - 1) →
      QdRel (l₁.foldl QuantileDigest.mergeIfNeeded d)
        (l₂.foldl QuantileDigest.mergeIfNeeded d) := by
  induction hp with
  | nil => intro d _ _; exact qdRel_refl d
  | cons x h ih =>
      intro d hn hr
      simp only [List.foldl_cons]
      exact ih (d.mergeIfNeeded x) (mifn_nodup d x hn)
        (fun y hy => hr y (List.mem_cons_of_mem x hy))
  | swap x y l =>
      intro d hn hr
      simp only [List.foldl_cons]
      by_cases hxy : x = y
      · subst hxy; exact qdRel_refl _
      · have hxr := hr x (by simp)
        have hyr := hr y (by simp)
        have h1 : 1 ≤ P := by rcases hPok with h | h <;> omega
        rcases hPok with hP1 | ⟨hP2, hPe⟩
        · exfalso; apply hxy; omega
        · refine foldRelSame l _ _
            (mifn_comm d P y x hP2 hPe hyr.1 hyr.2 hxr.1 hxr.2
              (fun hc => hxy hc.symm) hn) ?_ ?_ ?_
          · exact mifn_nodup _ x (mifn_nodup d y hn)
          · exact mifn_nodup _ y (mifn_nodup d x hn)
          · exact fun z hz =>
              le_trans h1 (hr z (List.mem_cons_of_mem y (List.mem_cons_of_mem x hz))).1
  | trans h₁ h₂ ih₁ ih₂ =>
      intro d hn hr
      refine qdRel_trans (ih₁ d hn hr) (ih₂ d hn ?_)
      exact fun x hx => hr x (h₁.mem_iff.mpr hx)

theorem dkeys_perm_of_mapEquiv {m₁ m₂ : List (Nat × Nat)} (h : MapEquiv m₁ m₂)
    (hn₁ : NodupKeys m₁) (hn₂ : NodupKeys m₂) : (dkeys m₁).Perm (dkeys m₂) := by
  refine (List.perm_ext_iff_of_nodup hn₁ hn₂).mpr ?_
  intro a
  show a ∈ dkeys m₁ ↔ a ∈ dkeys m₂
  rw [mem_dkeys_iff_lookup, mem_dkeys_iff_lookup, h a]

theorem mem_bucketsOnLevel_range (d : QuantileDigest) (L x : Nat)
    (h : x ∈ d.bucketsOnLevel L) :
    2 ^ (L - 1) ≤ x ∧ x ≤ 2 * 2 ^ (L - 1) - 1 := by
  unfold QuantileDigest.bucketsOnLevel at h
  have := List.of_mem_filter h
  simp only [Bool.and_eq_true, decide_eq_true_eq] at this
  exact this

theorem bucketsOnLevel_perm (d₁ d₂ : QuantileDigest) (L : Nat)
    (h : MapEquiv d₁.qdigest d₂.qdigest) (hn₁ : NodupKeys d₁.qdigest)
    (hn₂ : NodupKeys d₂.qdigest) :
    (d₁.bucketsOnLevel L).Perm (d₂.bucketsOnLevel L) := by
  unfold QuantileDigest.bucketsOnLevel
  exact (dkeys_perm_of_mapEquiv h hn₁ hn₂).filter _

theorem compressLevels_rel :
    ∀ (L : Nat) (d₁ d₂ : QuantileDigest), QdRel d₁ d₂ →
      NodupKeys d₁.qdigest → NodupKeys d₂.qdigest →
      QdRel (QuantileDigest.compressLevels L d₁)
        (QuantileDigest.compressLevels L d₂) := by
  intro L
  induction L with
  | zero => intro d₁ d₂ hR _ _; exact hR
  | succ n ih =>
      intro d₁ d₂ hR hn₁ hn₂
      unfold QuantileDigest.compressLevels
      have hperm : (d₁.bucketsOnLevel (n + 1)).Perm (d₂.bucketsOnLevel (n + 1)) :=
        bucketsOnLevel_perm d₁ d₂ (n + 1) hR.2.2.2.2 hn₁ hn₂
      have hr₁ : ∀ x ∈ d₁.bucketsOnLevel (n + 1), 2 ^ n ≤ x ∧ x ≤ 2 * 2 ^ n - 1 := by
        intro x hx
        have h := mem_bucketsOnLevel_range d₁ (n + 1) x hx
        simpa using h
      have hstep1 :
          QdRel ((d₁.bucketsOnLevel (n + 1)).foldl QuantileDigest.mergeIfNeeded d₁)
            ((d₁.bucketsOnLevel (n + 1)).foldl QuantileDigest.mergeIfNeeded d₂) :=
        foldRelSame _ d₁ d₂ hR hn₁ hn₂
          (fun x hx => mem_bucketsOnLevel_pos d₁ (n + 1) x hx)
      have hPok : 2 ^ n = 1 ∨ (2 ≤ 2 ^ n ∧ 2 ^ n % 2 = 0) := by
        cases n with
        | zero => left; rfl
        | succ m =>
            right
            have h1 : 1 ≤ 2 ^ m := Nat.one_le_two_pow
            have h2 : 2 ^ (m + 1) = 2 ^ m * 2 := pow_succ 2 m
            omega
      have hstep2 :
          QdRel ((d₁.bucketsOnLevel (n + 1)).foldl QuantileDigest.mergeIfNeeded d₂)
            ((d₂.bucketsOnLevel (n + 1)).foldl QuantileDigest.mergeIfNeeded d₂) :=
        foldRelPerm (2 ^ n) hPok hperm d₂ hn₂ hr₁
      exact ih _ _ (qdRel_trans hstep1 hstep2)
        (foldl_mifn_nodup _ d₁ hn₁) (foldl_mifn_nodup _ d₂ hn₂)

theorem compress_rel (d₁ d₂ : QuantileDigest) (hR : QdRel d₁ d₂)
    (hn₁ : NodupKeys d₁.qdigest) (hn₂ : NodupKeys d₂.qdigest) :
    QdRel d₁.compress d₂.compress := by
  unfold QuantileDigest.compress
  obtain ⟨hk, ht, hnb, hbv, hmap⟩ := hR
  by_cases h : d₁.numberOfBuckets < 2
  · rw [if_pos h, if_pos (by omega)]
    exact ⟨hk, ht, hnb, hbv, hmap⟩
  · rw [if_neg h, if_neg (by omega), ht]
    exact compressLevels_rel d₂.treeHeight d₁ d₂ ⟨hk, ht, hnb, hbv, hmap⟩ hn₁ hn₂

theorem dlookup_dunion_absent :
    ∀ (l m : List (Nat × Nat)) (x : Nat), dlookup x l = none →
      dlookup x (QuantileDigest.dunion m l) = dlookup x m
  | [], _, _, _ => rfl
  | (k, v) :: t, m, x, hxl => by
      have hk : k ≠ x := by
        intro hc; subst hc
        rw [dlookup_cons, if_pos rfl] at hxl
        exact Option.noConfusion hxl
      rw [dlookup_cons, if_neg hk] at hxl
      show dlookup x (QuantileDigest.dunion (dset k ((dlookup k m).getD 0 + v) m) t)
        = dlookup x m
      rw [dlookup_dunion_absent t _ x hxl, dlookup_dset_ne _ _ _ _ hk]

theorem dlookup_dunion_present :
    ∀ (l m : List (Nat × Nat)) (x c : Nat), NodupKeys l → dlookup x l = some c →
      dlookup x (QuantileDigest.dunion m l) = some ((dlookup x m).getD 0 + c)
  | [], _, _, _, _, hxl => by
      rw [dlookup_nil] at hxl
      exact Option.noConfusion hxl
  | (k, v) :: t, m, x, c, hn, hxl => by
      rw [nodupKeys_cons_iff] at hn
      by_cases hk : k = x
      · subst hk
        rw [dlookup_cons, if_pos rfl] at hxl
        injection hxl with hvc
        subst hvc
        have hkt : dlookup k t = none := dlookup_eq_none_of_not_mem k t hn.1
        show dlookup k (QuantileDigest.dunion (dset k ((dlookup k m).getD 0 + v) m) t)
          = some ((dlookup k m).getD 0 + v)
        rw [dlookup_dunion_absent t _ k hkt, dlookup_dset_self]
      · rw [dlookup_cons, if_neg hk] at hxl
        show dlookup x (QuantileDigest.dunion (dset k ((dlookup k m).getD 0 + v) m) t)
          = some ((dlookup x m).getD 0 + c)
        rw [dlookup_dunion_present t _ x c hn.2 hxl, dlookup_dset_ne _ _ _ _ hk]

theorem nodup_dunion :
    ∀ (l m : List (Nat × Nat)), NodupKeys m → NodupKeys (QuantileDigest.dunion m l)
  | [], _, hm => hm
  | (_, _) :: t, _, hm => nodup_dunion t _ (nodupKeys_dset _ _ _ hm)

theorem dsum_dunion :
    ∀ (l m : List (Nat × Nat)), dsum (QuantileDigest.dunion m l) = dsum m + dsum l
  | [], m => by show dsum m = dsum m + dsum []; simp [dsum]
  | (k, v) :: t, m => by
      show dsum (QuantileDigest.dunion (dset k ((dlookup k m).getD 0 + v) m) t)
        = dsum m + dsum ((k, v) :: t)
      rw [dsum_dunion t _]
      have hsum : dsum ((k, v) :: t) = v + dsum t := by simp [dsum]
      cases hkm : dlookup k m with
      | none =>
          rw [dsum_dset_absent _ _ _ hkm, hsum]
          simp only [Option.getD_none]
          omega
      | some c₀ =>
          have h := dsum_dset_present k ((some c₀).getD 0 + v) c₀ m hkm
          simp only [Option.getD_some] at h ⊢
          omega

theorem merge_eq (d other : QuantileDigest)
    (hcf : other.compression_factor = d.compression_factor)
    (hrb : other.range_in_bits = d.range_in_bits) :
    d.merge other =
      (QuantileDigest.compress
        { d with
          qdigest := QuantileDigest.dunion d.qdigest other.qdigest,
          numberOfBuckets := (QuantileDigest.dunion d.qdigest other.qdigest).length,
          exactBoundaryValue :=
            QFrac.ofDiv (dsum (QuantileDigest.dunion d.qdigest other.qdigest))
              d.compression_factor },
        none) := by
  unfold QuantileDigest.merge
  rw [if_neg (not_not_intro hcf), if_neg (not_not_intro hrb)]

/-- **C5**: for any two QuantileDigests `A` and `B` with equal
`range_in_bits` and equal `compression_factor` (and the tree height the
constructor derives from `range_in_bits`, with well-formed bucket dicts),
`A.merge(B)` and `B.merge(A)` produce digests with identical bucket maps
(every bucket id is associated with the same count in both) and identical
`count()`. -/
theorem c5_merge_commutative (A B : QuantileDigest)
    (hk : A.compression_factor = B.compression_factor)
    (hr : A.range_in_bits = B.range_in_bits)
    (hthA : A.treeHeight = A.range_in_bits + 1)
    (hthB : B.treeHeight = B.range_in_bits + 1)
    (hnA : NodupKeys A.qdigest) (hnB : NodupKeys B.qdigest) :
    MapEquiv (A.merge B).1.qdigest (B.merge A).1.qdigest ∧
      (A.merge B).1.count = (B.merge A).1.count := by
  have hth : A.treeHeight = B.treeHeight := by rw [hthA, hthB, hr]
  rw [merge_eq A B hk.symm hr.symm, merge_eq B A hk hr]
  have hnU₁ : NodupKeys (QuantileDigest.dunion A.qdigest B.qdigest) :=
    nodup_dunion B.qdigest A.qdigest hnA
  have hnU₂ : NodupKeys (QuantileDigest.dunion B.qdigest A.qdigest) :=
    nodup_dunion A.qdigest B.qdigest hnB
  have hmapU : MapEquiv (QuantileDigest.dunion A.qdigest B.qdigest)
      (QuantileDigest.dunion B.qdigest A.qdigest) := by
    intro x
    cases hA : dlookup x A.qdigest with
    | none =>
        cases hB : dlookup x B.qdigest with
        | none =>
            rw [dlookup_dunion_absent B.qdigest A.qdigest x hB,
              dlookup_dunion_absent A.qdigest B.qdigest x hA, hA, hB]
        | some cb =>
            rw [dlookup_dunion_present B.qdigest A.qdigest x cb hnB hB,
              dlookup_dunion_absent A.qdigest B.qdigest x hA, hA, hB]
            simp only [Option.getD_none, Option.some.injEq]
            omega
    | some ca =>
        cases hB : dlookup x B.qdigest with
        | none =>
            rw [dlookup_dunion_absent B.qdigest A.qdigest x hB,
              dlookup_dunion_present A.qdigest B.qdigest x ca hnA hA, hA, hB]
            simp only [Option.getD_none, Option.some.injEq]
            omega
        | some cb =>
            rw [dlookup_dunion_present B.qdigest A.qdigest x cb hnB hB,
              dlookup_dunion_present A.qdigest B.qdigest x ca hnA hA, hA, hB]
            simp only [Option.getD_some, Option.some.injEq]
            omega
  have hlen : (QuantileDigest.dunion A.qdigest B.qdigest).length =
      (QuantileDigest.dunion B.qdigest A.qdigest).length := by
    have hperm := dkeys_perm_of_mapEquiv hmapU hnU₁ hnU₂
    have hl := hperm.length_eq
    simpa [dkeys] using hl
  have hdsum : dsum (QuantileDigest.dunion A.qdigest B.qdigest) =
      dsum (QuantileDigest.dunion B.qdigest A.qdigest) := by
    rw [dsum_dunion, dsum_dunion]
    omega
  have hrel : QdRel
      { A with
        qdigest := QuantileDigest.dunion A.qdigest B.qdigest,
        numberOfBuckets := (QuantileDigest.dunion A.qdigest B.qdigest).length,
        exactBoundaryValue :=
          QFrac.ofDiv (dsum (QuantileDigest.dunion A.qdigest B.qdigest))
            A.compression_factor }
      { B with
        qdigest := QuantileDigest.dunion B.qdigest A.qdigest,
        numberOfBuckets := (QuantileDigest.dunion B.qdigest A.qdigest).length,
        exactBoundaryValue :=
          QFrac.ofDiv (dsum (QuantileDigest.dunion B.qdigest A.qdigest))
            B.compression_factor } := by
    refine ⟨hk, hth, hlen, ?_, hmapU⟩
    show QFrac.ofDiv (dsum (QuantileDigest.dunion A.qdigest B.qdigest))
        A.compression_factor =
      QFrac.ofDiv (dsum (QuantileDigest.dunion B.qdigest A.qdigest))
        B.compression_factor
    rw [hdsum, hk]
  have hrel' := compress_rel _ _ hrel hnU₁ hnU₂
  refine ⟨hrel'.2.2.2.2, ?_⟩
  have hc₁ := compress_count
    { A with
      qdigest := QuantileDigest.dunion A.qdigest B.qdigest,
      numberOfBuckets := (QuantileDigest.dunion A.qdigest B.qdigest).length,
      exactBoundaryValue :=
        QFrac.ofDiv (dsum (QuantileDigest.dunion A.qdigest B.qdigest))
          A.compression_factor }
  have hc₂ := compress_count
    { B with
      qdigest := QuantileDigest.dunion B.qdigest A.qdigest,
      numberOfBuckets := (QuantileDigest.dunion B.qdigest A.qdigest).length,
      exactBoundaryValue :=
        QFrac.ofDiv (dsum (QuantileDigest.dunion B.qdigest A.qdigest))
          B.compression_factor }
  exact hc₁.trans (hdsum.trans hc₂.symm)

/-- Witness for C5: two one-element digests over range `[0, 3]` with
compression factor 2; one holds the element 0, the other the element 3. -/
theorem c5_merge_commutative_witness :
    (((QuantileDigest.init 2 2).add 0 false).1.compression_factor =
        ((QuantileDigest.init 2 2).add 3 false).1.compression_factor ∧
      ((QuantileDigest.init 2 2).add 0 false).1.range_in_bits =
        ((QuantileDigest.init 2 2).add 3 false).1.range_in_bits ∧
      ((QuantileDigest.init 2 2).add 0 false).1.treeHeight =
        ((QuantileDigest.init 2 2).add 0 false).1.range_in_bits + 1 ∧
      ((QuantileDigest.init 2 2).add 3 false).1.treeHeight =
        ((QuantileDigest.init 2 2).add 3 false).1.range_in_bits + 1 ∧
      NodupKeys ((QuantileDigest.init 2 2).add 0 false).1.qdigest ∧
      NodupKeys ((QuantileDigest.init 2 2).add 3 false).1.qdigest) ∧
    (MapEquiv
        ((((QuantileDigest.init 2 2).add 0 false).1.merge
          ((QuantileDigest.init 2 2).add 3 false).1).1.qdigest)
        ((((QuantileDigest.init 2 2).add 3 false).1.merge
          ((QuantileDigest.init 2 2).add 0 false).1).1.qdigest) ∧
      (((QuantileDigest.init 2 2).add 0 false).1.merge
          ((QuantileDigest.init 2 2).add 3 false).1).1.count =
        (((QuantileDigest.init 2 2).add 3 false).1.merge
          ((QuantileDigest.init 2 2).add 0 false).1).1.count) :=
  ⟨⟨by decide, by decide, by decide, by decide, by decide, by decide⟩,
    c5_merge_commutative _ _ (by decide) (by decide) (by decide) (by decide)
      (by decide) (by decide)⟩
